import Mathlib

/-!
# Executor: kernel dispatch, timing extraction, benchmarking and guarded evaluation

A shallow embedding of `src/lib/Executor/src/Executor.cpp`.

Modelling conventions.

* The device, the kernel class and the kernel arguments are external: their classes are
  declared outside this source file.  Everything the code reads back from them (status
  codes of queries, profiling counters of events, the reported work-group size) is an input
  of the embedded functions; everything the code asks them to do (markers, uploads,
  argument bindings, kernel launches, downloads, clears, builds) is recorded, in order, in
  a trace.
* `cl_ulong` counters are naturals taken modulo `2^64`; `cl_uint` conversions reduce modulo
  `2^32`; an `int` product that leaves the 32-bit signed range wraps around modulo `2^32`, as
  it does on the two's-complement targets the code is built for (the C++ standard leaves
  the overflow undefined).
* A `float` or `double` value is the rational it denotes.  Conversions and arithmetic round
  to nearest, ties to even, to 24 (`float`) or 53 (`double`) significant bits.  The exponent
  range is left unbounded, which loses nothing here: every value the code rounds is zero
  or lies between `10^-7` and `2^66`, inside the normal range of both formats.  The timeout
  is any rational; infinities and NaNs are not modelled.
* A failed `ASSERT`, a `vector::resize` with a negative count and an out-of-range
  `operator[]` are faults: the computation stops there.
* Blocking on an event (`wait`) and the lines written to `std::cout` and `std::cerr` leave no
  mark in the model.
-/

namespace Executor

/-! ## Data model -/

/-- The OpenCL status code for success. -/
def CL_SUCCESS : Int := 0

/-- Ways in which a call can fail to return normally. -/
inductive Fault where
  | assertion
  | lengthError
  | outOfRange
  deriving DecidableEq, Repr

/-- Profiling data of one enqueued command as `clGetEventProfilingInfo` reports it once the
event is complete: for each of the three counters read by the code, the status code of the
query and the 64-bit counter value in nanoseconds. -/
structure Event where
  submitErr : Int
  submit : Nat
  startErr : Int
  start : Nat
  endErr : Int
  end_ : Nat
  deriving DecidableEq, Repr

/-- The six markers `executeKernel` enqueues. -/
inductive Marker where
  | totalBeginn
  | uploadBeginn
  | uploadEnd
  | downloadBeginn
  | downloadEnd
  | totalEnd
  deriving DecidableEq, Repr

/-- Compiled kernels: `plain` is the result of `kernel.build()`, `guarded` is the build of
the kernel whose source has the `WORKGROUP_GUARD` definition prepended. -/
inductive Kernel where
  | plain
  | guarded
  deriving DecidableEq, Repr

/-- A three-dimensional range `cl::NDRange`. -/
structure NDRange where
  x : Nat
  y : Nat
  z : Nat
  deriving DecidableEq, Repr

/-- Requests issued to the device and to the kernel arguments, in program order. -/
inductive Op (α : Type) where
  | enqueueMarker (m : Marker)
  | upload (arg : α)
  | setAsKernelArg (arg : α) (kernel : Kernel) (i : Nat)
  | enqueue (kernel : Kernel) (global : NDRange) (loc : NDRange)
  | download (arg : α)
  | clear (arg : α)
  | build (kernel : Kernel)
  deriving DecidableEq, Repr

/-- Modelled from the spec: the record type `executor::KernelTime`, whose declaration is not
among the source files.  The data model describes it as four durations in milliseconds,
upload, launch, download and total; `executeKernel` fills each of these four fields with a
`float` returned by the timing extractor, which the field holds unchanged. -/
structure KernelTime where
  upload : ℚ
  launch : ℚ
  download : ℚ
  total : ℚ
  deriving DecidableEq

/-- Everything the device reports during one `executeKernel` call: the events of the six
markers and the completion event of the kernel. -/
structure DispatchEvents where
  totalBeginn : Event
  uploadBeginn : Event
  uploadEnd : Event
  downloadBeginn : Event
  downloadEnd : Event
  totalEnd : Event
  event : Event

/-- Everything the device reports during one `evaluate` call: status and value of the
`CL_KERNEL_WORK_GROUP_SIZE` query (stored in an `int`), status and value of the
`CL_KERNEL_PRIVATE_MEM_SIZE` query, the completion event of the single-workgroup run, and
the completion event of the `i`-th launch of the actual run. -/
structure EvalDevice where
  wgErr : Int
  wg_size : Int
  pmErr : Int
  private_mem : Nat
  probeEvent : Event
  runEvent : Nat → Event

/-! ## Computations with a trace -/

/-- A computation: the requests it issued and either the fault that stopped it or its
value. -/
structure Run (α : Type) (β : Type) where
  trace : List (Op α)
  result : Except Fault β

/-- A computation that issues nothing and yields `b`. -/
def Run.ret {α β : Type} (b : β) : Run α β := ⟨[], .ok b⟩

/-- Sequencing: when the first computation faults the second is not run. -/
def Run.andThen {α β γ : Type} (x : Run α β) (f : β → Run α γ) : Run α γ :=
  match x.result with
  | .error e => ⟨x.trace, .error e⟩
  | .ok b => ⟨x.trace ++ (f b).trace, (f b).result⟩

instance instMonadRun {α : Type} : Monad (Run α) where
  pure := Run.ret
  bind := Run.andThen

/-- Issue one request. -/
def issue {α : Type} (op : Op α) : Run α Unit := ⟨[op], .ok ()⟩

/-- Embed a computation that touches no device. -/
def Run.ofExcept {α β : Type} (x : Except Fault β) : Run α β := ⟨[], x⟩

/-! ## Machine arithmetic -/

/-- Subtraction of two `cl_ulong` values: the difference modulo `2^64`. -/
def cl_ulong_sub (a b : Nat) : Nat := (a % 2 ^ 64 + (2 ^ 64 - b % 2 ^ 64)) % 2 ^ 64

/-- Conversion of an `int` to `cl_uint`. -/
def toClUint (n : Int) : Nat := (n % 2 ^ 32).toNat

/-- Reduction of an integer to the range of a 32-bit signed `int` (two's complement). -/
def toInt32 (n : Int) : Int := (n + 2 ^ 31) % 2 ^ 32 - 2 ^ 31

/-- Multiplication of two `int` values, wrapping around on overflow. -/
def intMul (a b : Int) : Int := toInt32 (a * b)

/-- Element access `v[idx]` of a `std::vector<double>` with an `int` index. -/
def vecRead (v : List ℚ) (idx : Int) : Except Fault ℚ :=
  if 0 ≤ idx then
    match v[idx.toNat]? with
    | some x => .ok x
    | none => .error .outOfRange
  else .error .outOfRange

/-! ## Floating-point arithmetic -/

/-- Rounding of a rational to the nearest integer, ties to the even one. -/
def roundHalfEven (s : ℚ) : ℤ :=
  if s - ⌊s⌋ < 1 / 2 then ⌊s⌋
  else if 1 / 2 < s - ⌊s⌋ then ⌊s⌋ + 1
  else if ⌊s⌋ % 2 = 0 then ⌊s⌋ else ⌊s⌋ + 1

/-- The exponent of the unit in the last place of a positive `x` at precision `p`: with
`2^e ≤ x < 2^(e+1)` it is `e - (p - 1)`. -/
def ulpExponent (p : Nat) (x : ℚ) : ℤ := Int.log 2 x - ((p : ℤ) - 1)

/-- Rounding of a non-negative rational to `p` significant bits: the significand
`x / 2^ulpExponent` is rounded to the nearest integer, ties to even. -/
def roundNonneg (p : Nat) (x : ℚ) : ℚ :=
  (roundHalfEven (x / 2 ^ ulpExponent p x) : ℚ) * 2 ^ ulpExponent p x

/-- Rounding to `p` significant bits, to nearest, ties to even. -/
def roundToPrecision (p : Nat) (x : ℚ) : ℚ :=
  if x < 0 then -roundNonneg p (-x) else roundNonneg p x

/-- The nearest `double`. -/
def toDouble (x : ℚ) : ℚ := roundToPrecision 53 x

/-- The nearest `float`: the conversion `static_cast<float>`. -/
def toFloat (x : ℚ) : ℚ := roundToPrecision 24 x

/-- Addition of two `double` values. -/
def doubleAdd (a b : ℚ) : ℚ := toDouble (a + b)

/-- Multiplication of two `double` values. -/
def doubleMul (a b : ℚ) : ℚ := toDouble (a * b)

/-- Division of two `double` values. -/
def doubleDiv (a b : ℚ) : ℚ := toDouble (a / b)

/-! ## Timing extraction -/

/-- Modelled from the spec: the macro `ASSERT`, whose definition is not among the source
files.  The timing extractor "fails (propagates a fatal assertion) if the device cannot
supply profiling counters": a check whose condition is false stops the computation with
the fault `assertion`, a check whose condition holds does nothing. -/
def ASSERT (cond : Prop) [Decidable cond] : Except Fault Unit :=
  if cond then .ok () else .error .assertion

/-- Variant (a), `getRuntimeInMilliseconds(cl::Event)`: the event's own start and end
counters.  The value is `static_cast<float>((end - start) * 1.0e-06)`: the unsigned
difference is converted to `double`, multiplied by the `double` nearest to `10^-6` and
converted to `float`. -/
def getRuntimeInMilliseconds (event : Event) : Except Fault ℚ := do
  ASSERT (event.startErr = CL_SUCCESS)
  ASSERT (event.endErr = CL_SUCCESS)
  pure (toFloat (doubleMul (toDouble (cl_ulong_sub event.end_ event.start : ℕ))
    (toDouble (1 / 1000000))))

/-- Variant (b), `getRuntimeInMilliseconds(cl::Event&, cl::Event&)`: the submission
counters of two events, turned into milliseconds by the same expression. -/
def getRuntimeInMilliseconds2 (start end_ : Event) : Except Fault ℚ := do
  ASSERT (start.submitErr = CL_SUCCESS)
  ASSERT (end_.submitErr = CL_SUCCESS)
  pure (toFloat (doubleMul (toDouble (cl_ulong_sub end_.submit start.submit : ℕ))
    (toDouble (1 / 1000000))))

/-! ## Dispatch -/

/-- The loop `for (auto& arg : args) { arg->upload(); arg->setAsKernelArg(kernel, i); ++i; }`
started with counter `i`. -/
def uploadAndBind {α : Type} (kernel : Kernel) : List α → Nat → Run α Unit
  | [], _ => pure ()
  | arg :: rest, i => do
    issue (.upload arg)
    issue (.setAsKernelArg arg kernel i)
    uploadAndBind kernel rest (i + 1)

/-- The loop `for (auto& arg : args) { arg->setAsKernelArg(kernel, i); ++i; }` started with
counter `i`. -/
def bindAll {α : Type} (kernel : Kernel) : List α → Nat → Run α Unit
  | [], _ => pure ()
  | arg :: rest, i => do
    issue (.setAsKernelArg arg kernel i)
    bindAll kernel rest (i + 1)

/-- A loop `for (auto& arg : args) arg->op();` over the argument list. -/
def forEachArg {α : Type} (op : α → Op α) : List α → Run α Unit
  | [] => pure ()
  | arg :: rest => do
    issue (op arg)
    forEachArg op rest

/-- One upload, launch, download cycle: `executeKernel`. -/
def executeKernel {α : Type} (dev : DispatchEvents) (kernel : Kernel)
    (localSize1 localSize2 localSize3 globalSize1 globalSize2 globalSize3 : Int)
    (args : List α) : Run α KernelTime := do
  issue (.enqueueMarker .totalBeginn)
  let clLocalSize1 := toClUint localSize1
  let clGlobalSize1 := toClUint globalSize1
  let clLocalSize2 := toClUint localSize2
  let clGlobalSize2 := toClUint globalSize2
  let clLocalSize3 := toClUint localSize3
  let clGlobalSize3 := toClUint globalSize3
  issue (.enqueueMarker .uploadBeginn)
  uploadAndBind kernel args 0
  issue (.enqueueMarker .uploadEnd)
  let upload ← Run.ofExcept (getRuntimeInMilliseconds2 dev.uploadBeginn dev.uploadEnd)
  issue (.enqueue kernel ⟨clGlobalSize1, clGlobalSize2, clGlobalSize3⟩
    ⟨clLocalSize1, clLocalSize2, clLocalSize3⟩)
  let launch ← Run.ofExcept (getRuntimeInMilliseconds dev.event)
  issue (.enqueueMarker .downloadBeginn)
  forEachArg .download args
  issue (.enqueueMarker .downloadEnd)
  let download ← Run.ofExcept (getRuntimeInMilliseconds2 dev.downloadBeginn dev.downloadEnd)
  issue (.enqueueMarker .totalEnd)
  let total ← Run.ofExcept (getRuntimeInMilliseconds2 dev.totalBeginn dev.totalEnd)
  pure { upload := upload, launch := launch, download := download, total := total }

/-! ## Benchmark -/

/-- The loop of `benchmark`, with `remaining = iterations - i` passes still to run; the
guard `i < iterations` holds exactly when `remaining` is not zero. -/
def benchmarkLoop {α : Type} (dev : Nat → DispatchEvents)
    (localSize1 localSize2 localSize3 globalSize1 globalSize2 globalSize3 : Int)
    (args : List α) (timeout : ℚ) :
    Nat → Nat → List KernelTime → Run α (List KernelTime)
  | 0, _, runtimes => pure runtimes
  | remaining + 1, i, runtimes => do
    forEachArg .clear args
    issue (.build .plain)
    let runtime ← executeKernel (dev i) .plain localSize1 localSize2 localSize3
      globalSize1 globalSize2 globalSize3 args
    let runtimes := runtimes ++ [runtime]
    if timeout ≠ 0 ∧ runtime.launch ≥ timeout then
      pure runtimes
    else
      benchmarkLoop dev localSize1 localSize2 localSize3 globalSize1 globalSize2 globalSize3
        args timeout remaining (i + 1) runtimes

/-- The function `benchmark`: `dev i` is what the device reports during pass `i`; the value
is the caller's collection `runtimes` after the call. -/
def benchmark {α : Type} (dev : Nat → DispatchEvents)
    (localSize1 localSize2 localSize3 globalSize1 globalSize2 globalSize3 : Int)
    (args : List α) (iterations : Int) (timeout : ℚ) (runtimes : List KernelTime) :
    Run α (List KernelTime) :=
  benchmarkLoop dev localSize1 localSize2 localSize3 globalSize1 globalSize2 globalSize3
    args timeout iterations.toNat 0 runtimes

/-! ## Evaluate -/

/-- The median step of `evaluate` on the sorted vector: the reads `allRuntimes[iterations/2]`
and `allRuntimes[iterations/2 - 1]` use `int` division and remainder, the sum and the
division by `2.0` are `double` operations. -/
def median (allRuntimes : List ℚ) (iterations : Int) : Except Fault ℚ :=
  if Int.tmod iterations 2 = 0 then do
    let hi ← vecRead allRuntimes (Int.tdiv iterations 2)
    let lo ← vecRead allRuntimes (Int.tdiv iterations 2 - 1)
    pure (doubleDiv (doubleAdd hi lo) 2)
  else
    vecRead allRuntimes (Int.tdiv iterations 2)

/-- The vector indices the median step reads, in the order it reads them. -/
def medianIndices (iterations : Int) : List Int :=
  if Int.tmod iterations 2 = 0 then [Int.tdiv iterations 2, Int.tdiv iterations 2 - 1]
  else [Int.tdiv iterations 2]

/-- The measuring loop of `evaluate`, with `remaining = iterations - i` passes still to run.
The value is `inl runtime` when the loop returned `runtime` from the function, and
`inr allRuntimes` when it ran to its end. -/
def measureLoop {α : Type} (dev : EvalDevice) (global loc : NDRange) (args : List α)
    (timeout : ℚ) : Nat → Nat → List ℚ → Run α (ℚ ⊕ List ℚ)
  | 0, _, allRuntimes => pure (.inr allRuntimes)
  | remaining + 1, i, allRuntimes => do
    issue (.enqueue .plain global loc)
    let runtime ← Run.ofExcept (getRuntimeInMilliseconds (dev.runEvent i))
    if runtime > timeout then do
      forEachArg .download args
      pure (.inl runtime)
    else
      measureLoop dev global loc args timeout remaining (i + 1) (allRuntimes.set i runtime)

/-- The block "actual run" of `evaluate`.  The call of `std::sort` yields the ascending
arrangement of the vector, computed here by insertion sort. -/
def actualRun {α : Type} (dev : EvalDevice) (global loc : NDRange) (args : List α)
    (iterations : Int) (timeout : ℚ) : Run α ℚ :=
  if iterations < 0 then Run.ofExcept (.error .lengthError)
  else do
    let allRuntimes := List.replicate iterations.toNat (0 : ℚ)
    issue (.build .plain)
    bindAll .plain args 0
    let exit ← measureLoop dev global loc args timeout iterations.toNat 0 allRuntimes
    match exit with
    | .inl runtime => pure runtime
    | .inr allRuntimes => do
      forEachArg .download args
      let sorted := allRuntimes.insertionSort (· ≤ ·)
      Run.ofExcept (median sorted iterations)

/-- The function `evaluate`. -/
def evaluate {α : Type} (dev : EvalDevice)
    (localSize1 localSize2 localSize3 globalSize1 globalSize2 globalSize3 : Int)
    (args : List α) (iterations : Int) (timeout : ℚ) : Run α ℚ := do
  let loc : NDRange := ⟨toClUint localSize1, toClUint localSize2, toClUint localSize3⟩
  let global : NDRange := ⟨toClUint globalSize1, toClUint globalSize2, toClUint globalSize3⟩
  forEachArg .upload args
  issue (.build .guarded)
  if dev.wgErr ≠ CL_SUCCESS then pure (-1)
  else if dev.pmErr ≠ CL_SUCCESS then pure (-1)
  else do
    if dev.wg_size < intMul (intMul localSize1 localSize2) localSize3 then pure (-1)
    else do
      bindAll .guarded args 0
      issue (.enqueue .guarded global loc)
      let time ← Run.ofExcept (getRuntimeInMilliseconds dev.probeEvent)
      if time > timeout then pure (-time)
      else actualRun dev global loc args iterations timeout

/-! ## Derived descriptions and sample inputs -/

/-- The requests `evaluate` issues up to and including the launch of the guarded kernel. -/
def probeTrace {α : Type} (l1 l2 l3 g1 g2 g3 : Int) (args : List α) : List (Op α) :=
  args.map Op.upload ++ [Op.build .guarded]
    ++ (args.enum.map fun p => Op.setAsKernelArg p.2 .guarded p.1)
    ++ [Op.enqueue .guarded ⟨toClUint g1, toClUint g2, toClUint g3⟩
          ⟨toClUint l1, toClUint l2, toClUint l3⟩]

/-- The duration `static_cast<float>(ticks * 1.0e-06)` both variants of the timing
extractor compute from a difference of `ticks` nanoseconds. -/
def ticksToMilliseconds (ticks : Nat) : ℚ :=
  toFloat (doubleMul (toDouble (ticks : ℚ)) (toDouble (1 / 1000000)))

/-- The non-negative numbers with at most `p` significant bits: the values a rounding to
`p` bits can yield. -/
def Representable (p : Nat) (x : ℚ) : Prop :=
  ∃ (m : Nat) (k : ℤ), m < 2 ^ p ∧ x = (m : ℚ) * 2 ^ k

/-- Whether a request is a kernel launch. -/
def isLaunch {α : Type} : Op α → Bool
  | .enqueue _ _ _ => true
  | _ => false

/-- The number of kernel launches in a trace. -/
def launches {α : Type} (trace : List (Op α)) : Nat := trace.countP isLaunch

/-- An event all of whose profiling queries succeed, submitted and started at `start` and
finished at `end_` (nanoseconds). -/
def completedEvent (start end_ : Nat) : Event := ⟨0, start, 0, start, 0, end_⟩

/-- A device for `evaluate` whose two kernel queries succeed: it reports the work-group
size `wg`, the event `probe` for the guarded kernel and the events `runs` for the launches
of the actual run. -/
def stubDevice (wg : Int) (probe : Event) (runs : List Event) : EvalDevice :=
  ⟨0, wg, 0, 0, probe, fun i => runs.getD i (completedEvent 0 0)⟩

/-- What the device reports during one `executeKernel` call whose markers are submitted at
`0, 1, 2, 3, 4, 5` and whose kernel runs for `launch` nanoseconds. -/
def stubDispatch (launch : Nat) : DispatchEvents :=
  ⟨completedEvent 0 0, completedEvent 1 1, completedEvent 2 2, completedEvent 3 3,
    completedEvent 4 4, completedEvent 5 5, completedEvent 0 launch⟩

/-! ## Computations: basic facts -/

variable {α β γ : Type}

theorem Run.bind_ok (t : List (Op α)) (b : β) (f : β → Run α γ) :
    ((⟨t, .ok b⟩ : Run α β) >>= f) = ⟨t ++ (f b).trace, (f b).result⟩ := rfl

theorem Run.bind_error (t : List (Op α)) (e : Fault) (f : β → Run α γ) :
    ((⟨t, .error e⟩ : Run α β) >>= f) = ⟨t, .error e⟩ := rfl

theorem Run.pure_eq (b : β) : (pure b : Run α β) = ⟨[], .ok b⟩ := rfl

theorem issue_eq (op : Op α) : issue op = ⟨[op], .ok ()⟩ := rfl

theorem forEachArg_eq (op : α → Op α) (args : List α) :
    forEachArg op args = ⟨args.map op, .ok ()⟩ := by
  induction args with
  | nil => rfl
  | cons a rest ih => simp [forEachArg, ih, issue_eq, Run.bind_ok]

theorem uploadAndBind_eq (kernel : Kernel) (args : List α) (i : Nat) :
    uploadAndBind kernel args i =
      ⟨(args.enumFrom i).flatMap
        (fun p => [Op.upload p.2, Op.setAsKernelArg p.2 kernel p.1]), .ok ()⟩ := by
  induction args generalizing i with
  | nil => rfl
  | cons a rest ih => simp [uploadAndBind, ih, issue_eq, Run.bind_ok, List.enumFrom]

theorem bindAll_eq (kernel : Kernel) (args : List α) (i : Nat) :
    bindAll kernel args i =
      ⟨(args.enumFrom i).map (fun p => Op.setAsKernelArg p.2 kernel p.1), .ok ()⟩ := by
  induction args generalizing i with
  | nil => rfl
  | cons a rest ih => simp [bindAll, ih, issue_eq, Run.bind_ok, List.enumFrom]

theorem Run.result_bind_ok {x : Run α β} {b : β} (h : x.result = .ok b) (f : β → Run α γ) :
    (x >>= f).result = (f b).result := by
  show (Run.andThen x f).result = _
  unfold Run.andThen
  rw [h]

theorem Run.trace_bind_ok {x : Run α β} {b : β} (h : x.result = .ok b) (f : β → Run α γ) :
    (x >>= f).trace = x.trace ++ (f b).trace := by
  show (Run.andThen x f).trace = _
  unfold Run.andThen
  rw [h]

/-! ## Floating-point arithmetic: basic facts -/

theorem roundHalfEven_intCast (j : ℤ) : roundHalfEven (j : ℚ) = j := by
  unfold roundHalfEven
  simp

theorem le_roundHalfEven {s : ℚ} {j : ℤ} (h : (j : ℚ) ≤ s) : j ≤ roundHalfEven s := by
  have hf : j ≤ ⌊s⌋ := Int.le_floor.mpr h
  unfold roundHalfEven
  split
  · exact hf
  · split
    · omega
    · split <;> omega

theorem roundHalfEven_le {s : ℚ} {j : ℤ} (h : s ≤ (j : ℚ)) : roundHalfEven s ≤ j := by
  have hf : ⌊s⌋ ≤ j := by
    have : (⌊s⌋ : ℚ) ≤ j := le_trans (Int.floor_le s) h
    exact_mod_cast this
  unfold roundHalfEven
  split
  · exact hf
  · rename_i hnot
    have hlt : ⌊s⌋ < j := by
      rcases lt_or_eq_of_le hf with h1 | h1
      · exact h1
      · exfalso
        apply hnot
        have : s - ⌊s⌋ ≤ 0 := by rw [h1]; linarith
        linarith
    split
    · omega
    · split <;> omega

theorem roundHalfEven_eq_of_abs_lt {s : ℚ} {m : ℤ} (h : |s - m| < 1 / 2) :
    roundHalfEven s = m := by
  rw [abs_lt] at h
  obtain ⟨h1, h2⟩ := h
  by_cases hm : (m : ℚ) ≤ s
  · have hf : ⌊s⌋ = m := by
      rw [Int.floor_eq_iff]
      exact ⟨hm, by linarith⟩
    unfold roundHalfEven
    rw [hf, if_pos (by linarith)]
  · have hm' : s < m := lt_of_not_le hm
    have hf : ⌊s⌋ = m - 1 := by
      rw [Int.floor_eq_iff]
      push_cast
      exact ⟨by linarith, by linarith⟩
    unfold roundHalfEven
    rw [hf]
    push_cast
    rw [if_neg (by linarith), if_pos (by linarith)]
    ring


theorem log_two_eq {x : ℚ} {e : ℤ} (hx : 0 < x) (h1 : (2 : ℚ) ^ e ≤ x) (h2 : x < (2 : ℚ) ^ (e + 1)) :
    Int.log 2 x = e := by
  have a : e ≤ Int.log 2 x := by
    rw [← Int.zpow_le_iff_le_log (by norm_num) hx]
    exact_mod_cast h1
  have b : Int.log 2 x < e + 1 := by
    rw [← Int.lt_zpow_iff_log_lt (by norm_num) hx]
    exact_mod_cast h2
  omega

theorem zpow_log_le {x : ℚ} (hx : 0 < x) : (2 : ℚ) ^ Int.log 2 x ≤ x := by
  have := Int.zpow_log_le_self (b := 2) (by norm_num) hx
  exact_mod_cast this

theorem lt_zpow_log_succ (x : ℚ) : x < (2 : ℚ) ^ (Int.log 2 x + 1) := by
  have := Int.lt_zpow_succ_log_self (b := 2) (by norm_num) x
  exact_mod_cast this

theorem two_zpow_pos (k : ℤ) : (0 : ℚ) < 2 ^ k := zpow_pos (by norm_num) k

theorem roundNonneg_zero (p : Nat) : roundNonneg p 0 = 0 := by
  unfold roundNonneg
  simp [roundHalfEven]

theorem roundNonneg_nonneg (p : Nat) {x : ℚ} (hx : 0 ≤ x) : 0 ≤ roundNonneg p x := by
  unfold roundNonneg
  have hs : ((0 : ℤ) : ℚ) ≤ x / 2 ^ ulpExponent p x := by
    simpa using div_nonneg hx (two_zpow_pos _).le
  have := le_roundHalfEven hs
  have h2 : (0 : ℚ) ≤ (roundHalfEven (x / 2 ^ ulpExponent p x) : ℚ) := by exact_mod_cast this
  exact mul_nonneg h2 (two_zpow_pos _).le

/-- The scaled significand of a positive `x` lies in `[2^(p-1), 2^p)`. -/
theorem scaled_bounds (p : Nat) (hp : 1 ≤ p) {x : ℚ} (hx : 0 < x) :
    ((2 ^ (p - 1) : ℤ) : ℚ) ≤ x / 2 ^ ulpExponent p x ∧
    x / 2 ^ ulpExponent p x < ((2 ^ p : ℤ) : ℚ) := by
  have hu := two_zpow_pos (ulpExponent p x)
  have e1 : ((2 ^ (p - 1) : ℤ) : ℚ) * 2 ^ ulpExponent p x = 2 ^ Int.log 2 x := by
    push_cast
    rw [← zpow_natCast, ← zpow_add₀ (by norm_num)]
    congr 1
    unfold ulpExponent
    omega
  have e2 : ((2 ^ p : ℤ) : ℚ) * 2 ^ ulpExponent p x = 2 ^ (Int.log 2 x + 1) := by
    push_cast
    rw [← zpow_natCast, ← zpow_add₀ (by norm_num)]
    congr 1
    unfold ulpExponent
    omega
  constructor
  · rw [le_div_iff₀ hu, e1]
    exact zpow_log_le hx
  · rw [div_lt_iff₀ hu, e2]
    exact lt_zpow_log_succ x

theorem roundNonneg_pos (p : Nat) (hp : 1 ≤ p) {x : ℚ} (hx : 0 < x) : 0 < roundNonneg p x := by
  unfold roundNonneg
  have h := le_roundHalfEven (scaled_bounds p hp hx).1
  have hpos : (0 : ℤ) < 2 ^ (p - 1) := by positivity
  have h2 : (0 : ℚ) < (roundHalfEven (x / 2 ^ ulpExponent p x) : ℚ) := by
    exact_mod_cast lt_of_lt_of_le hpos h
  exact mul_pos h2 (two_zpow_pos _)

/-- Evaluation of the rounding from an explicit binade and significand. -/
theorem roundNonneg_eq (p : Nat) {x : ℚ} (e m : ℤ) (hx : 0 < x)
    (h1 : (2 : ℚ) ^ e ≤ x) (h2 : x < (2 : ℚ) ^ (e + 1))
    (h3 : |x / 2 ^ (e - ((p : ℤ) - 1)) - m| < 1 / 2) :
    roundNonneg p x = (m : ℚ) * 2 ^ (e - ((p : ℤ) - 1)) := by
  unfold roundNonneg ulpExponent
  rw [log_two_eq hx h1 h2, roundHalfEven_eq_of_abs_lt h3]


theorem Representable.nonneg {p : Nat} {x : ℚ} (h : Representable p x) : 0 ≤ x := by
  obtain ⟨m, k, _, rfl⟩ := h
  exact mul_nonneg (Nat.cast_nonneg m) (two_zpow_pos k).le

theorem Representable.zero (p : Nat) : Representable p 0 :=
  ⟨0, 0, by positivity, by simp⟩

theorem Representable.natCast {p : Nat} {n : Nat} (h : n < 2 ^ p) : Representable p (n : ℚ) :=
  ⟨n, 0, h, by simp⟩

theorem Representable.mono {p q : Nat} (hpq : p ≤ q) {x : ℚ} (h : Representable p x) :
    Representable q x := by
  obtain ⟨m, k, hm, rfl⟩ := h
  exact ⟨m, k, lt_of_lt_of_le hm (Nat.pow_le_pow_right (by norm_num) hpq), rfl⟩

theorem Representable.double {p : Nat} {x : ℚ} (h : Representable p x) :
    Representable p (2 * x) := by
  obtain ⟨m, k, hm, rfl⟩ := h
  refine ⟨m, k + 1, hm, ?_⟩
  rw [zpow_add_one₀ (by norm_num)]
  ring

theorem Representable.half {p : Nat} {x : ℚ} (h : Representable p x) :
    Representable p (x / 2) := by
  obtain ⟨m, k, hm, rfl⟩ := h
  refine ⟨m, k - 1, hm, ?_⟩
  rw [zpow_sub_one₀ (by norm_num)]
  ring

/-- A representable number at or above `2^e` is an integer multiple of the unit in the last
place of the binade `[2^e, 2^(e+1))`. -/
theorem Representable.multiple {p : Nat} {y : ℚ} (h : Representable p y) {e : ℤ}
    (he : (2 : ℚ) ^ e ≤ y) : ∃ j : ℤ, y = (j : ℚ) * 2 ^ (e - ((p : ℤ) - 1)) := by
  obtain ⟨m, k, hm, rfl⟩ := h
  have hmq : (m : ℚ) < 2 ^ (p : ℤ) := by
    rw [zpow_natCast]
    exact_mod_cast hm
  have hlt : (2 : ℚ) ^ e < 2 ^ ((p : ℤ) + k) := by
    rw [zpow_add₀ (by norm_num)]
    exact lt_of_le_of_lt he (mul_lt_mul_of_pos_right hmq (two_zpow_pos k))
  have hek : e < (p : ℤ) + k := (zpow_lt_zpow_iff_right₀ (by norm_num)).mp hlt
  refine ⟨(m : ℤ) * 2 ^ (k - (e - ((p : ℤ) - 1))).toNat, ?_⟩
  push_cast
  rw [mul_assoc, ← zpow_natCast, ← zpow_add₀ (by norm_num)]
  congr 2
  omega

theorem roundNonneg_of_representable {p : Nat} {x : ℚ} (h : Representable p x) :
    roundNonneg p x = x := by
  rcases eq_or_lt_of_le h.nonneg with h0 | hpos
  · rw [← h0, roundNonneg_zero]
  · obtain ⟨j, hj⟩ := h.multiple (zpow_log_le hpos)
    have hu := two_zpow_pos (ulpExponent p x)
    have hs : x / 2 ^ ulpExponent p x = (j : ℚ) := by
      rw [div_eq_iff hu.ne']
      exact hj
    unfold roundNonneg
    rw [hs, roundHalfEven_intCast]
    exact hj.symm

theorem roundNonneg_representable (p : Nat) (hp : 1 ≤ p) {x : ℚ} (hx : 0 ≤ x) :
    Representable p (roundNonneg p x) := by
  rcases eq_or_lt_of_le hx with h0 | hpos
  · rw [← h0, roundNonneg_zero]
    exact Representable.zero p
  · obtain ⟨hlo, hhi⟩ := scaled_bounds p hp hpos
    have h1 := le_roundHalfEven hlo
    have h2 := roundHalfEven_le hhi.le
    have hpow : (0 : ℤ) < 2 ^ (p - 1) := by positivity
    unfold roundNonneg
    rcases lt_or_eq_of_le h2 with hlt | heq
    · refine ⟨(roundHalfEven (x / 2 ^ ulpExponent p x)).toNat, ulpExponent p x, ?_, ?_⟩
      · have : ((roundHalfEven (x / 2 ^ ulpExponent p x)).toNat : ℤ) < ((2 ^ p : ℕ) : ℤ) := by
          rw [Int.toNat_of_nonneg (by omega)]
          exact_mod_cast hlt
        exact_mod_cast this
      · congr 1
        have : ((roundHalfEven (x / 2 ^ ulpExponent p x)).toNat : ℤ) =
            roundHalfEven (x / 2 ^ ulpExponent p x) := Int.toNat_of_nonneg (by omega)
        exact_mod_cast this.symm
    · refine ⟨1, ulpExponent p x + p, Nat.one_lt_two_pow (by omega), ?_⟩
      rw [heq, zpow_add₀ (by norm_num), zpow_natCast]
      push_cast
      ring

theorem roundNonneg_le_of_le {p : Nat} {x y : ℚ} (hx : 0 ≤ x) (hxy : x ≤ y)
    (hy : Representable p y) : roundNonneg p x ≤ y := by
  rcases eq_or_lt_of_le hx with h0 | hpos
  · rw [← h0, roundNonneg_zero]
    exact hy.nonneg
  · obtain ⟨j, hj⟩ := hy.multiple (le_trans (zpow_log_le hpos) hxy)
    have hu := two_zpow_pos (ulpExponent p x)
    have hs : x / 2 ^ ulpExponent p x ≤ (j : ℚ) := by
      rw [div_le_iff₀ hu]
      exact hxy.trans (le_of_eq hj)
    have := roundHalfEven_le hs
    unfold roundNonneg
    rw [hj]
    exact mul_le_mul_of_nonneg_right (by exact_mod_cast this) hu.le

theorem le_roundNonneg_of_le {p : Nat} (hp : 1 ≤ p) {x y : ℚ} (hyx : y ≤ x)
    (hy : Representable p y) : y ≤ roundNonneg p x := by
  have hx : 0 ≤ x := le_trans hy.nonneg hyx
  rcases eq_or_lt_of_le hx with h0 | hpos
  · rw [← h0, roundNonneg_zero]
    rw [← h0] at hyx
    exact hyx
  · have hu := two_zpow_pos (ulpExponent p x)
    by_cases hbin : (2 : ℚ) ^ Int.log 2 x ≤ y
    · obtain ⟨j, hj⟩ := hy.multiple hbin
      have hs : (j : ℚ) ≤ x / 2 ^ ulpExponent p x := by
        rw [le_div_iff₀ hu]
        exact (le_of_eq hj.symm).trans hyx
      have := le_roundHalfEven hs
      unfold roundNonneg
      rw [hj]
      exact mul_le_mul_of_nonneg_right (by exact_mod_cast this) hu.le
    · have hlow := le_roundHalfEven (scaled_bounds p hp hpos).1
      have e1 : ((2 ^ (p - 1) : ℤ) : ℚ) * 2 ^ ulpExponent p x = 2 ^ Int.log 2 x := by
        push_cast
        rw [← zpow_natCast, ← zpow_add₀ (by norm_num)]
        congr 1
        unfold ulpExponent
        omega
      have : (2 : ℚ) ^ Int.log 2 x ≤ roundNonneg p x := by
        unfold roundNonneg
        rw [← e1]
        exact mul_le_mul_of_nonneg_right (by exact_mod_cast hlow) hu.le
      exact le_trans (le_of_lt (lt_of_not_le hbin)) this

theorem roundNonneg_half {p : Nat} {x : ℚ} (hx : 0 ≤ x) :
    roundNonneg p (x / 2) = roundNonneg p x / 2 := by
  rcases eq_or_lt_of_le hx with h0 | hpos
  · rw [← h0]
    simp [roundNonneg_zero]
  · have hlog : Int.log 2 (x / 2) = Int.log 2 x - 1 := by
      apply log_two_eq (by positivity)
      · rw [zpow_sub_one₀ (by norm_num), div_eq_mul_inv]
        exact mul_le_mul_of_nonneg_right (zpow_log_le hpos) (by norm_num)
      · rw [sub_add_cancel]
        have := lt_zpow_log_succ x
        rw [zpow_add_one₀ (by norm_num)] at this
        linarith
    have hu : ulpExponent p (x / 2) = ulpExponent p x - 1 := by
      unfold ulpExponent
      rw [hlog]
      ring
    unfold roundNonneg
    rw [hu, zpow_sub_one₀ (by norm_num)]
    have hs : x / 2 / (2 ^ ulpExponent p x * 2⁻¹) = x / 2 ^ ulpExponent p x := by
      field_simp
    rw [hs]
    ring


theorem roundToPrecision_of_nonneg (p : Nat) {x : ℚ} (hx : 0 ≤ x) :
    roundToPrecision p x = roundNonneg p x := by
  unfold roundToPrecision
  rw [if_neg (not_lt.mpr hx)]

theorem toDouble_eq {x : ℚ} (e m : ℤ) (v : ℚ) (hx : 0 < x)
    (h1 : (2 : ℚ) ^ e ≤ x) (h2 : x < (2 : ℚ) ^ (e + 1))
    (h3 : |x / 2 ^ (e - 52) - m| < 1 / 2) (hv : (m : ℚ) * 2 ^ (e - 52) = v) :
    toDouble x = v := by
  unfold toDouble
  rw [roundToPrecision_of_nonneg 53 hx.le, roundNonneg_eq 53 e m hx h1 h2 (by simpa using h3)]
  simpa using hv

theorem toFloat_eq {x : ℚ} (e m : ℤ) (v : ℚ) (hx : 0 < x)
    (h1 : (2 : ℚ) ^ e ≤ x) (h2 : x < (2 : ℚ) ^ (e + 1))
    (h3 : |x / 2 ^ (e - 23) - m| < 1 / 2) (hv : (m : ℚ) * 2 ^ (e - 23) = v) :
    toFloat x = v := by
  unfold toFloat
  rw [roundToPrecision_of_nonneg 24 hx.le, roundNonneg_eq 24 e m hx h1 h2 (by simpa using h3)]
  simpa using hv

theorem toDouble_natCast {n : Nat} (h : n < 2 ^ 53) : toDouble (n : ℚ) = n := by
  unfold toDouble
  rw [roundToPrecision_of_nonneg 53 (Nat.cast_nonneg n),
    roundNonneg_of_representable (Representable.natCast h)]

theorem toFloat_natCast {n : Nat} (h : n < 2 ^ 24) : toFloat (n : ℚ) = n := by
  unfold toFloat
  rw [roundToPrecision_of_nonneg 24 (Nat.cast_nonneg n),
    roundNonneg_of_representable (Representable.natCast h)]

theorem toDouble_of_nonneg {x : ℚ} (hx : 0 ≤ x) : toDouble x = roundNonneg 53 x :=
  roundToPrecision_of_nonneg 53 hx

theorem toFloat_of_nonneg {x : ℚ} (hx : 0 ≤ x) : toFloat x = roundNonneg 24 x :=
  roundToPrecision_of_nonneg 24 hx

theorem toDouble_nonneg {x : ℚ} (hx : 0 ≤ x) : 0 ≤ toDouble x := by
  rw [toDouble_of_nonneg hx]
  exact roundNonneg_nonneg 53 hx

theorem toDouble_pos {x : ℚ} (hx : 0 < x) : 0 < toDouble x := by
  rw [toDouble_of_nonneg hx.le]
  exact roundNonneg_pos 53 (by norm_num) hx

theorem toFloat_nonneg {x : ℚ} (hx : 0 ≤ x) : 0 ≤ toFloat x := by
  rw [toFloat_of_nonneg hx]
  exact roundNonneg_nonneg 24 hx

theorem toFloat_pos {x : ℚ} (hx : 0 < x) : 0 < toFloat x := by
  rw [toFloat_of_nonneg hx.le]
  exact roundNonneg_pos 24 (by norm_num) hx

theorem toDouble_zero : toDouble 0 = 0 := by
  rw [toDouble_of_nonneg le_rfl, roundNonneg_zero]

theorem toFloat_zero : toFloat 0 = 0 := by
  rw [toFloat_of_nonneg le_rfl, roundNonneg_zero]

theorem toDouble_representable {x : ℚ} (hx : 0 ≤ x) : Representable 53 (toDouble x) := by
  rw [toDouble_of_nonneg hx]
  exact roundNonneg_representable 53 (by norm_num) hx

theorem toFloat_representable {x : ℚ} (hx : 0 ≤ x) : Representable 24 (toFloat x) := by
  rw [toFloat_of_nonneg hx]
  exact roundNonneg_representable 24 (by norm_num) hx

theorem toDouble_of_representable {x : ℚ} (h : Representable 53 x) : toDouble x = x := by
  rw [toDouble_of_nonneg h.nonneg, roundNonneg_of_representable h]

theorem toDouble_oneMicro :
    toDouble (1 / 1000000) = 4722366482869645 / 4722366482869645213696 := by
  apply toDouble_eq (-20) 4722366482869645
  · norm_num
  · norm_num
  · norm_num
  · norm_num [abs_lt]
  · norm_num

theorem ticksToMilliseconds_nonneg (n : Nat) : 0 ≤ ticksToMilliseconds n := by
  unfold ticksToMilliseconds doubleMul
  exact toFloat_nonneg (toDouble_nonneg (mul_nonneg (toDouble_nonneg (Nat.cast_nonneg n))
    (toDouble_nonneg (by norm_num))))

theorem ticksToMilliseconds_zero : ticksToMilliseconds 0 = 0 := by
  unfold ticksToMilliseconds doubleMul
  rw [Nat.cast_zero, toDouble_zero, zero_mul, toDouble_zero, toFloat_zero]

theorem ticksToMilliseconds_pos {n : Nat} (h : 0 < n) : 0 < ticksToMilliseconds n := by
  unfold ticksToMilliseconds doubleMul
  have hn : (0 : ℚ) < (n : ℚ) := by exact_mod_cast h
  exact toFloat_pos (toDouble_pos (mul_pos (toDouble_pos hn) (toDouble_pos (by norm_num))))

theorem ticksToMilliseconds_representable (n : Nat) :
    Representable 24 (ticksToMilliseconds n) := by
  unfold ticksToMilliseconds doubleMul
  exact toFloat_representable (toDouble_nonneg (mul_nonneg (toDouble_nonneg (Nat.cast_nonneg n))
    (toDouble_nonneg (by norm_num))))

/-- Evaluation of the extractor's expression from the binades and significands of its two
inexact roundings, for a tick count below `2^53`. -/
theorem ticksToMilliseconds_eq (n : Nat) (hn : n < 2 ^ 53) (d v : ℚ)
    (hd : toDouble ((n : ℚ) * (4722366482869645 / 4722366482869645213696)) = d)
    (hv : toFloat d = v) : ticksToMilliseconds n = v := by
  unfold ticksToMilliseconds doubleMul
  rw [toDouble_natCast hn, toDouble_oneMicro, hd, hv]

/-- A whole number of milliseconds below `2^24` comes out exactly when the product rounds to
it. -/
theorem ticksToMilliseconds_whole (n k : Nat) (hn : n < 2 ^ 53) (hk : k < 2 ^ 24)
    (hd : toDouble ((n : ℚ) * (4722366482869645 / 4722366482869645213696)) = k) :
    ticksToMilliseconds n = k :=
  ticksToMilliseconds_eq n hn k k hd (toFloat_natCast hk)

theorem ticksToMilliseconds_1ms : ticksToMilliseconds 1000000 = 1 := by
  have h := ticksToMilliseconds_whole 1000000 1 (by norm_num) (by norm_num)
    (by
      apply toDouble_eq (-1) 9007199254740992
      · norm_num
      · norm_num
      · norm_num
      · norm_num [abs_lt]
      · norm_num)
  simpa using h

theorem ticksToMilliseconds_2ms : ticksToMilliseconds 2000000 = 2 := by
  have h := ticksToMilliseconds_whole 2000000 2 (by norm_num) (by norm_num)
    (by
      apply toDouble_eq 0 9007199254740992
      · norm_num
      · norm_num
      · norm_num
      · norm_num [abs_lt]
      · norm_num)
  simpa using h

theorem ticksToMilliseconds_3ms : ticksToMilliseconds 3000000 = 3 := by
  have h := ticksToMilliseconds_whole 3000000 3 (by norm_num) (by norm_num)
    (by
      apply toDouble_eq 1 6755399441055744
      · norm_num
      · norm_num
      · norm_num
      · norm_num [abs_lt]
      · norm_num)
  simpa using h

theorem ticksToMilliseconds_5ms : ticksToMilliseconds 5000000 = 5 := by
  have h := ticksToMilliseconds_whole 5000000 5 (by norm_num) (by norm_num)
    (by
      apply toDouble_eq 2 5629499534213120
      · norm_num
      · norm_num
      · norm_num
      · norm_num [abs_lt]
      · norm_num)
  simpa using h

theorem ticksToMilliseconds_7ms : ticksToMilliseconds 7000000 = 7 := by
  have h := ticksToMilliseconds_whole 7000000 7 (by norm_num) (by norm_num)
    (by
      apply toDouble_eq 2 7881299347898368
      · norm_num
      · norm_num
      · norm_num
      · norm_num [abs_lt]
      · norm_num)
  simpa using h

theorem ticksToMilliseconds_4000 : ticksToMilliseconds 4000 = 8589935 / 2147483648 := by
  apply ticksToMilliseconds_eq 4000 (by norm_num) (1152921504606847 / 288230376151711744)
  · apply toDouble_eq (-8) 4611686018427388
    · norm_num
    · norm_num
    · norm_num
    · norm_num [abs_lt]
    · norm_num
  · apply toFloat_eq (-8) 8589935
    · norm_num
    · norm_num
    · norm_num
    · norm_num [abs_lt]
    · norm_num

theorem ticksToMilliseconds_max :
    ticksToMilliseconds 18446744073709551615 = 18446744027136 := by
  unfold ticksToMilliseconds doubleMul
  have h0 : toDouble ((18446744073709551615 : ℕ) : ℚ) = 18446744073709551616 := by
    apply toDouble_eq 63 9007199254740992
    · norm_num
    · norm_num
    · norm_num
    · norm_num [abs_lt]
    · norm_num
  rw [h0, toDouble_oneMicro]
  have h : toDouble ((18446744073709551616 : ℚ) *
      (4722366482869645 / 4722366482869645213696)) = 4722366482869645 / 256 := by
    apply toDouble_eq 44 4722366482869645
    · norm_num
    · norm_num
    · norm_num
    · norm_num [abs_lt]
    · norm_num
  rw [h]
  apply toFloat_eq 44 8796093
  · norm_num
  · norm_num
  · norm_num
  · norm_num [abs_lt]
  · norm_num

/-- The `double` average `(hi + lo) / 2.0` of two non-negative values: halving is exact. -/
theorem doubleAverage_eq {hi lo : ℚ} (hhi : 0 ≤ hi) (hlo : 0 ≤ lo) :
    doubleDiv (doubleAdd hi lo) 2 = toDouble (hi + lo) / 2 := by
  unfold doubleDiv doubleAdd
  exact toDouble_of_representable (toDouble_representable (add_nonneg hhi hlo)).half

/-- The `double` average is the exact average rounded to `double`. -/
theorem doubleAverage_eq_round {hi lo : ℚ} (hhi : 0 ≤ hi) (hlo : 0 ≤ lo) :
    doubleDiv (doubleAdd hi lo) 2 = toDouble ((hi + lo) / 2) := by
  have h := add_nonneg hhi hlo
  rw [doubleAverage_eq hhi hlo, toDouble_of_nonneg h, toDouble_of_nonneg (by positivity),
    roundNonneg_half h]

theorem doubleAverage_exact {hi lo : ℚ} (hhi : 0 ≤ hi) (hlo : 0 ≤ lo)
    (h : Representable 53 (hi + lo)) : doubleDiv (doubleAdd hi lo) 2 = (hi + lo) / 2 := by
  rw [doubleAverage_eq hhi hlo, toDouble_of_representable h]

/-- The `double` average of two `double` values lies between them. -/
theorem doubleAverage_between {hi lo : ℚ} (hhi : Representable 53 hi)
    (hlo : Representable 53 lo) (hle : lo ≤ hi) :
    lo ≤ doubleDiv (doubleAdd hi lo) 2 ∧ doubleDiv (doubleAdd hi lo) 2 ≤ hi := by
  have h := add_nonneg hhi.nonneg hlo.nonneg
  rw [doubleAverage_eq hhi.nonneg hlo.nonneg, toDouble_of_nonneg h]
  constructor
  · have := le_roundNonneg_of_le (p := 53) (by norm_num) (x := hi + lo) (y := 2 * lo)
      (by linarith) hlo.double
    linarith
  · have := roundNonneg_le_of_le (p := 53) (x := hi + lo) (y := 2 * hi) h
      (by linarith) hhi.double
    linarith

/-! ## Machine arithmetic and timing: basic facts -/

theorem cl_ulong_sub_self (a : Nat) : cl_ulong_sub a a = 0 := by
  unfold cl_ulong_sub
  have h : a % 2 ^ 64 < 2 ^ 64 := Nat.mod_lt _ (by norm_num)
  have : a % 2 ^ 64 + (2 ^ 64 - a % 2 ^ 64) = 2 ^ 64 := by omega
  rw [this, Nat.mod_self]

theorem cl_ulong_sub_of_le {a b : Nat} (ha : a < 2 ^ 64) (hba : b ≤ a) :
    cl_ulong_sub a b = a - b := by
  unfold cl_ulong_sub
  omega

theorem cl_ulong_sub_of_lt {a b : Nat} (hb : b < 2 ^ 64) (hab : a < b) :
    cl_ulong_sub a b = 2 ^ 64 - (b - a) := by
  unfold cl_ulong_sub
  omega

theorem getRuntimeInMilliseconds_ok (e : Event) (hs : e.startErr = CL_SUCCESS)
    (he : e.endErr = CL_SUCCESS) :
    getRuntimeInMilliseconds e = .ok (ticksToMilliseconds (cl_ulong_sub e.end_ e.start)) := by
  unfold getRuntimeInMilliseconds ASSERT
  rw [if_pos hs, if_pos he]
  rfl

theorem getRuntimeInMilliseconds2_ok (start end_ : Event) (hs : start.submitErr = CL_SUCCESS)
    (he : end_.submitErr = CL_SUCCESS) :
    getRuntimeInMilliseconds2 start end_ =
      .ok (ticksToMilliseconds (cl_ulong_sub end_.submit start.submit)) := by
  unfold getRuntimeInMilliseconds2 ASSERT
  rw [if_pos hs, if_pos he]
  rfl

theorem intMul_ok {a b : Int} (hlo : -(2 ^ 31) ≤ a * b) (hhi : a * b < 2 ^ 31) :
    intMul a b = a * b := by
  unfold intMul toInt32
  omega

theorem product_ok {l1 l2 l3 : Int} (h1 : 0 < l1) (h2 : 0 < l2) (h3 : 0 < l3)
    (hhi : l1 * l2 * l3 < 2 ^ 31) :
    intMul (intMul l1 l2) l3 = l1 * l2 * l3 := by
  have h12 : 0 < l1 * l2 := Int.mul_pos h1 h2
  have hle : l1 * l2 ≤ l1 * l2 * l3 := by nlinarith
  have h123 : 0 < l1 * l2 * l3 := Int.mul_pos h12 h3
  have e12 : intMul l1 l2 = l1 * l2 := intMul_ok (by linarith) (by linarith)
  rw [e12]
  exact intMul_ok (by linarith) hhi

theorem vecRead_natCast (s : List ℚ) (k : Nat) (h : k < s.length) :
    vecRead s (k : Int) = .ok (s.get ⟨k, h⟩) := by
  unfold vecRead
  simp [List.getElem?_eq_getElem h]

theorem tmod_two_natCast (N : Nat) : Int.tmod (N : Int) 2 = ((N % 2 : Nat) : Int) :=
  (Int.ofNat_tmod N 2).symm

theorem tdiv_two_natCast (N : Nat) : Int.tdiv (N : Int) 2 = ((N / 2 : Nat) : Int) :=
  (Int.ofNat_tdiv N 2).symm

theorem median_odd (s : List ℚ) (N : Nat) (hodd : N % 2 = 1) (h : N / 2 < s.length) :
    median s N = .ok (s.get ⟨N / 2, h⟩) := by
  unfold median
  have e : ¬ ((N % 2 : Nat) : Int) = 0 := by omega
  rw [tmod_two_natCast, tdiv_two_natCast, if_neg e, vecRead_natCast s _ h]

theorem median_even (s : List ℚ) (N : Nat) (hN : 1 ≤ N) (heven : N % 2 = 0)
    (h : N / 2 < s.length) :
    median s N =
      .ok (doubleDiv (doubleAdd (s.get ⟨N / 2, h⟩) (s.get ⟨N / 2 - 1, by omega⟩)) 2) := by
  unfold median
  have hcast : ((N / 2 : Nat) : Int) - 1 = ((N / 2 - 1 : Nat) : Int) := by omega
  have e : ((N % 2 : Nat) : Int) = 0 := by omega
  rw [tmod_two_natCast, tdiv_two_natCast, if_pos e, vecRead_natCast s _ h,
    hcast, vecRead_natCast s _ (by omega)]
  rfl

/-! ## The trace of a dispatch -/

theorem executeKernel_trace (dev : DispatchEvents) (kernel : Kernel)
    (l1 l2 l3 g1 g2 g3 : Int) (args : List α) (t : KernelTime)
    (h : (executeKernel dev kernel l1 l2 l3 g1 g2 g3 args).result = .ok t) :
    (executeKernel dev kernel l1 l2 l3 g1 g2 g3 args).trace =
      [Op.enqueueMarker .totalBeginn, Op.enqueueMarker .uploadBeginn]
      ++ (args.enum.flatMap fun p => [Op.upload p.2, Op.setAsKernelArg p.2 kernel p.1])
      ++ [Op.enqueueMarker .uploadEnd,
          Op.enqueue kernel ⟨toClUint g1, toClUint g2, toClUint g3⟩
            ⟨toClUint l1, toClUint l2, toClUint l3⟩,
          Op.enqueueMarker .downloadBeginn]
      ++ args.map Op.download
      ++ [Op.enqueueMarker .downloadEnd, Op.enqueueMarker .totalEnd] := by
  unfold executeKernel at h ⊢
  simp only [issue_eq, uploadAndBind_eq, forEachArg_eq, Run.bind_ok, Run.ofExcept] at h ⊢
  cases h1 : getRuntimeInMilliseconds2 dev.uploadBeginn dev.uploadEnd with
  | error e => simp [h1, Run.bind_error] at h
  | ok u =>
    cases h2 : getRuntimeInMilliseconds dev.event with
    | error e => simp [h1, h2, Run.bind_error, Run.bind_ok] at h
    | ok l =>
      cases h3 : getRuntimeInMilliseconds2 dev.downloadBeginn dev.downloadEnd with
      | error e => simp [h1, h2, h3, Run.bind_error, Run.bind_ok] at h
      | ok d =>
        cases h4 : getRuntimeInMilliseconds2 dev.totalBeginn dev.totalEnd with
        | error e => simp [h1, h2, h3, h4, Run.bind_error, Run.bind_ok] at h
        | ok tt =>
          simp [h1, h2, h3, h4, Run.bind_ok, Run.pure_eq, List.enum]

theorem length_uploadBind (kernel : Kernel) (args : List α) (k : Nat) :
    ((args.enumFrom k).flatMap
      fun p => [Op.upload p.2, Op.setAsKernelArg p.2 kernel p.1]).length = 2 * args.length := by
  induction args generalizing k with
  | nil => rfl
  | cons a rest ih => simp [List.enumFrom, ih]; omega

theorem getElem_uploadBind (kernel : Kernel) (args : List α) (k i : Nat)
    (hi : i < args.length) :
    ((args.enumFrom k).flatMap
        fun p => [Op.upload p.2, Op.setAsKernelArg p.2 kernel p.1])[2 * i]?
      = some (Op.upload (args.get ⟨i, hi⟩)) ∧
    ((args.enumFrom k).flatMap
        fun p => [Op.upload p.2, Op.setAsKernelArg p.2 kernel p.1])[2 * i + 1]?
      = some (Op.setAsKernelArg (args.get ⟨i, hi⟩) kernel (k + i)) := by
  induction args generalizing k i with
  | nil => simp at hi
  | cons a rest ih =>
    cases i with
    | zero => simp [List.enumFrom]
    | succ j =>
      have hj : j < rest.length := by simpa using hi
      have := ih (k + 1) j hj
      have e1 : 2 * (j + 1) = (2 * j) + 1 + 1 := by ring
      have e2 : 2 * (j + 1) + 1 = (2 * j + 1) + 1 + 1 := by ring
      constructor
      · rw [e1]; simp [List.enumFrom, this.1]
      · rw [e2]; simp [List.enumFrom, this.2]; omega

theorem executeKernel_positions (dev : DispatchEvents) (kernel : Kernel)
    (l1 l2 l3 g1 g2 g3 : Int) (args : List α) (t : KernelTime)
    (h : (executeKernel dev kernel l1 l2 l3 g1 g2 g3 args).result = .ok t) :
    (executeKernel dev kernel l1 l2 l3 g1 g2 g3 args).trace[2 + 2 * args.length + 1]? =
        some (Op.enqueue kernel ⟨toClUint g1, toClUint g2, toClUint g3⟩
            ⟨toClUint l1, toClUint l2, toClUint l3⟩) ∧
    ∀ (i : Nat) (hi : i < args.length),
      (executeKernel dev kernel l1 l2 l3 g1 g2 g3 args).trace[2 + 2 * i]? =
        some (Op.upload (args.get ⟨i, hi⟩)) ∧
      (executeKernel dev kernel l1 l2 l3 g1 g2 g3 args).trace[2 + 2 * i + 1]? =
        some (Op.setAsKernelArg (args.get ⟨i, hi⟩) kernel i) ∧
      (executeKernel dev kernel l1 l2 l3 g1 g2 g3 args).trace[2 + 2 * args.length + 3 + i]? =
        some (Op.download (args.get ⟨i, hi⟩)) := by
  rw [executeKernel_trace dev kernel l1 l2 l3 g1 g2 g3 args t h]
  have hlen := length_uploadBind kernel args 0
  simp only [List.enum] at *
  constructor
  · simp only [List.append_assoc, List.cons_append, List.nil_append]
    rw [show 2 + 2 * args.length + 1 = (2 * args.length + 1) + 1 + 1 by ring]
    simp only [List.getElem?_cons_succ]
    rw [List.getElem?_append_right (by omega)]
    simp [hlen]
  · intro i hi
    have := getElem_uploadBind kernel args 0 i hi
    simp only [List.append_assoc, List.cons_append, List.nil_append]
    refine ⟨?_, ?_, ?_⟩
    · rw [show 2 + 2 * i = (2 * i) + 1 + 1 by ring]
      simp only [List.getElem?_cons_succ]
      rw [List.getElem?_append_left (by omega), this.1]
    · rw [show 2 + 2 * i + 1 = (2 * i + 1) + 1 + 1 by ring]
      simp only [List.getElem?_cons_succ]
      rw [List.getElem?_append_left (by omega), this.2]
      simp
    · rw [show 2 + 2 * args.length + 3 + i = (2 * args.length + 3 + i) + 1 + 1 by ring]
      simp only [List.getElem?_cons_succ]
      rw [List.getElem?_append_right (by omega)]
      rw [hlen, show 2 * args.length + 3 + i - 2 * args.length = i + 1 + 1 + 1 by omega]
      simp only [List.getElem?_cons_succ]
      rw [List.getElem?_append_left (by simpa using hi)]
      simp [List.getElem?_eq_getElem hi]

/-! ## Unfolding `evaluate` -/

theorem evaluate_check_failed (dev : EvalDevice) (l1 l2 l3 g1 g2 g3 : Int) (args : List α)
    (iterations : Int) (T : ℚ)
    (hwg : dev.wgErr = CL_SUCCESS) (hpm : dev.pmErr = CL_SUCCESS)
    (hbig : dev.wg_size < intMul (intMul l1 l2) l3) :
    evaluate dev l1 l2 l3 g1 g2 g3 args iterations T =
      ⟨args.map Op.upload ++ [Op.build .guarded], .ok (-1)⟩ := by
  unfold evaluate
  simp [forEachArg_eq, issue_eq, Run.bind_ok, hwg, hpm, hbig, Run.pure_eq]

theorem evaluate_check_passed (dev : EvalDevice) (l1 l2 l3 g1 g2 g3 : Int) (args : List α)
    (iterations : Int) (T : ℚ) (t : ℚ)
    (hwg : dev.wgErr = CL_SUCCESS) (hpm : dev.pmErr = CL_SUCCESS)
    (hcheck : ¬ dev.wg_size < intMul (intMul l1 l2) l3)
    (hprobe : getRuntimeInMilliseconds dev.probeEvent = .ok t) :
    evaluate dev l1 l2 l3 g1 g2 g3 args iterations T =
      if t > T then ⟨probeTrace l1 l2 l3 g1 g2 g3 args, .ok (-t)⟩
      else ⟨probeTrace l1 l2 l3 g1 g2 g3 args ++
            (actualRun dev ⟨toClUint g1, toClUint g2, toClUint g3⟩
              ⟨toClUint l1, toClUint l2, toClUint l3⟩ args iterations T).trace,
            (actualRun dev ⟨toClUint g1, toClUint g2, toClUint g3⟩
              ⟨toClUint l1, toClUint l2, toClUint l3⟩ args iterations T).result⟩ := by
  unfold evaluate probeTrace
  simp only [forEachArg_eq, issue_eq, Run.bind_ok, hwg, hpm, Run.ofExcept, hprobe,
    bindAll_eq, hcheck, ne_eq, not_true_eq_false, if_false, List.enum]
  split <;> simp [Run.pure_eq]

theorem evaluate_rejected (dev : EvalDevice) (l1 l2 l3 g1 g2 g3 : Int) (args : List α)
    (iterations : Int) (T : ℚ)
    (hwg : dev.wgErr = CL_SUCCESS) (hpm : dev.pmErr = CL_SUCCESS)
    (h1 : 0 < l1) (h2 : 0 < l2) (h3 : 0 < l3) (hhi : l1 * l2 * l3 < 2 ^ 31)
    (hbig : dev.wg_size < l1 * l2 * l3) :
    evaluate dev l1 l2 l3 g1 g2 g3 args iterations T =
      ⟨args.map Op.upload ++ [Op.build .guarded], .ok (-1)⟩ :=
  evaluate_check_failed dev l1 l2 l3 g1 g2 g3 args iterations T hwg hpm
    (by rw [product_ok h1 h2 h3 hhi]; exact hbig)

theorem evaluate_probe_run (dev : EvalDevice) (l1 l2 l3 g1 g2 g3 : Int) (args : List α)
    (iterations : Int) (T : ℚ) (t : ℚ)
    (hwg : dev.wgErr = CL_SUCCESS) (hpm : dev.pmErr = CL_SUCCESS)
    (h1 : 0 < l1) (h2 : 0 < l2) (h3 : 0 < l3) (hint : dev.wg_size < 2 ^ 31)
    (hfit : l1 * l2 * l3 ≤ dev.wg_size)
    (hprobe : getRuntimeInMilliseconds dev.probeEvent = .ok t) :
    evaluate dev l1 l2 l3 g1 g2 g3 args iterations T =
      if t > T then ⟨probeTrace l1 l2 l3 g1 g2 g3 args, .ok (-t)⟩
      else ⟨probeTrace l1 l2 l3 g1 g2 g3 args ++
            (actualRun dev ⟨toClUint g1, toClUint g2, toClUint g3⟩
              ⟨toClUint l1, toClUint l2, toClUint l3⟩ args iterations T).trace,
            (actualRun dev ⟨toClUint g1, toClUint g2, toClUint g3⟩
              ⟨toClUint l1, toClUint l2, toClUint l3⟩ args iterations T).result⟩ :=
  evaluate_check_passed dev l1 l2 l3 g1 g2 g3 args iterations T t hwg hpm
    (by rw [product_ok h1 h2 h3 (lt_of_le_of_lt hfit hint)]; exact not_lt.mpr hfit) hprobe

theorem measureLoop_complete (dev : EvalDevice) (global loc : NDRange) (args : List α) (T : ℚ)
    (r : Nat → ℚ) (n i : Nat)
    (hrun : ∀ j, i ≤ j → j < i + n → getRuntimeInMilliseconds (dev.runEvent j) = .ok (r j))
    (hle : ∀ j, i ≤ j → j < i + n → r j ≤ T) :
    measureLoop dev global loc args T n i ((List.range i).map r ++ List.replicate n 0) =
      ⟨List.replicate n (Op.enqueue .plain global loc),
        .ok (.inr ((List.range (i + n)).map r))⟩ := by
  induction n generalizing i with
  | zero => simp [measureLoop, Run.pure_eq]
  | succ n ih =>
    have hset : ((List.range i).map r ++ List.replicate (n + 1) 0).set i (r i) =
        (List.range (i + 1)).map r ++ List.replicate n 0 := by
      rw [List.set_append_right _ _ (by simp)]
      simp [List.range_succ, List.replicate_succ]
    have hi := hrun i le_rfl (by omega)
    have hiT : ¬ r i > T := not_lt.mpr (hle i le_rfl (by omega))
    have := ih (i + 1) (fun j h1 h2 => hrun j (by omega) (by omega))
      (fun j h1 h2 => hle j (by omega) (by omega))
    unfold measureLoop
    simp only [issue_eq, Run.bind_ok, Run.ofExcept, hi, hiT, if_false, hset, this]
    simp [List.replicate_succ, show i + 1 + n = i + (n + 1) by omega]

theorem measureLoop_exceeds (dev : EvalDevice) (global loc : NDRange) (args : List α) (T : ℚ)
    (r : Nat → ℚ) (m : Nat) (n i : Nat) (v : List ℚ) (hm : m < n)
    (hrun : ∀ j, i ≤ j → j ≤ i + m → getRuntimeInMilliseconds (dev.runEvent j) = .ok (r j))
    (hle : ∀ j, i ≤ j → j < i + m → r j ≤ T) (hgt : r (i + m) > T) :
    measureLoop dev global loc args T n i v =
      ⟨List.replicate (m + 1) (Op.enqueue .plain global loc) ++ args.map Op.download,
        .ok (.inl (r (i + m)))⟩ := by
  induction m generalizing n i v with
  | zero =>
    obtain ⟨n, rfl⟩ : ∃ k, n = k + 1 := ⟨n - 1, by omega⟩
    have hi := hrun i le_rfl (by omega)
    unfold measureLoop
    simp only [issue_eq, Run.bind_ok, Run.ofExcept, hi, forEachArg_eq, Run.pure_eq]
    simp at hgt
    simp [hgt]
  | succ m ih =>
    obtain ⟨n, rfl⟩ : ∃ k, n = k + 1 := ⟨n - 1, by omega⟩
    have hi := hrun i le_rfl (by omega)
    have hiT : ¬ r i > T := not_lt.mpr (hle i le_rfl (by omega))
    have := ih n (i + 1) (v.set i (r i)) (by omega) (fun j h1 h2 => hrun j (by omega) (by omega))
      (fun j h1 h2 => hle j (by omega) (by omega))
      (by rw [show i + 1 + m = i + (m + 1) by omega]; exact hgt)
    unfold measureLoop
    simp only [issue_eq, Run.bind_ok, Run.ofExcept, hi, hiT, if_false, this]
    simp [List.replicate_succ, show i + 1 + m = i + (m + 1) by omega]

theorem actualRun_complete (dev : EvalDevice) (global loc : NDRange) (args : List α) (T : ℚ)
    (r : Nat → ℚ) (N : Nat)
    (hrun : ∀ j, j < N → getRuntimeInMilliseconds (dev.runEvent j) = .ok (r j))
    (hle : ∀ j, j < N → r j ≤ T) :
    actualRun dev global loc args (N : Int) T =
      ⟨[Op.build .plain] ++ (args.enum.map fun p => Op.setAsKernelArg p.2 .plain p.1)
          ++ List.replicate N (Op.enqueue .plain global loc) ++ args.map Op.download,
        median (((List.range N).map r).insertionSort (· ≤ ·)) N⟩ := by
  have h := measureLoop_complete dev global loc args T r N 0
    (fun j _ h2 => hrun j (by omega)) (fun j _ h2 => hle j (by omega))
  simp only [List.range_zero, List.map_nil, List.nil_append, Nat.zero_add] at h
  unfold actualRun
  simp only [Int.toNat_ofNat, h, issue_eq, bindAll_eq, forEachArg_eq, Run.bind_ok, Run.ofExcept,
    List.enum]
  simp

theorem actualRun_exceeds (dev : EvalDevice) (global loc : NDRange) (args : List α) (T : ℚ)
    (r : Nat → ℚ) (N m : Nat) (hm : m < N)
    (hrun : ∀ j, j ≤ m → getRuntimeInMilliseconds (dev.runEvent j) = .ok (r j))
    (hle : ∀ j, j < m → r j ≤ T) (hgt : r m > T) :
    actualRun dev global loc args (N : Int) T =
      ⟨[Op.build .plain] ++ (args.enum.map fun p => Op.setAsKernelArg p.2 .plain p.1)
          ++ List.replicate (m + 1) (Op.enqueue .plain global loc) ++ args.map Op.download,
        .ok (r m)⟩ := by
  have h := measureLoop_exceeds dev global loc args T r m N 0 (List.replicate N 0) hm
    (fun j _ h2 => hrun j (by omega)) (fun j _ h2 => hle j (by omega)) (by simpa using hgt)
  simp only [Nat.zero_add] at h
  unfold actualRun
  simp only [Int.toNat_ofNat, h, issue_eq, bindAll_eq, forEachArg_eq, Run.bind_ok, Run.ofExcept,
    List.enum]
  simp [Run.pure_eq]

/-! ## Sample dispatches -/

theorem completedEvent_markers (a b : Nat) (ha : a < 2 ^ 64) (hab : b ≤ a) :
    getRuntimeInMilliseconds2 (completedEvent b b) (completedEvent a a) =
      .ok (ticksToMilliseconds (a - b)) := by
  rw [getRuntimeInMilliseconds2_ok _ _ rfl rfl]
  simp only [completedEvent]
  rw [cl_ulong_sub_of_le ha hab]

theorem completedEvent_runtime_from (s a : Nat) (ha : a < 2 ^ 64) (hs : s ≤ a) :
    getRuntimeInMilliseconds (completedEvent s a) = .ok (ticksToMilliseconds (a - s)) := by
  rw [getRuntimeInMilliseconds_ok _ rfl rfl]
  simp only [completedEvent]
  rw [cl_ulong_sub_of_le ha hs]

theorem completedEvent_runtime (a : Nat) (ha : a < 2 ^ 64) :
    getRuntimeInMilliseconds (completedEvent 0 a) = .ok (ticksToMilliseconds a) :=
  completedEvent_runtime_from 0 a ha (Nat.zero_le a)

theorem runtime_0ms : getRuntimeInMilliseconds (completedEvent 0 0) = .ok 0 := by
  rw [completedEvent_runtime 0 (by norm_num), ticksToMilliseconds_zero]

theorem runtime_1ms : getRuntimeInMilliseconds (completedEvent 0 1000000) = .ok 1 := by
  rw [completedEvent_runtime _ (by norm_num), ticksToMilliseconds_1ms]

theorem runtime_3ms : getRuntimeInMilliseconds (completedEvent 0 3000000) = .ok 3 := by
  rw [completedEvent_runtime _ (by norm_num), ticksToMilliseconds_3ms]

theorem runtime_5ms : getRuntimeInMilliseconds (completedEvent 0 5000000) = .ok 5 := by
  rw [completedEvent_runtime _ (by norm_num), ticksToMilliseconds_5ms]

theorem runtime_7ms : getRuntimeInMilliseconds (completedEvent 0 7000000) = .ok 7 := by
  rw [completedEvent_runtime _ (by norm_num), ticksToMilliseconds_7ms]

theorem runtime_4000ns :
    getRuntimeInMilliseconds (completedEvent 1000 5000) = .ok (8589935 / 2147483648) := by
  rw [completedEvent_runtime_from 1000 5000 (by norm_num) (by norm_num)]
  exact congrArg Except.ok ticksToMilliseconds_4000

theorem stubDispatch_result (launch : Nat) (hl : launch < 2 ^ 64) (kernel : Kernel)
    (l1 l2 l3 g1 g2 g3 : Int) (args : List α) :
    (executeKernel (stubDispatch launch) kernel l1 l2 l3 g1 g2 g3 args).result =
      .ok ⟨ticksToMilliseconds 1, ticksToMilliseconds launch, ticksToMilliseconds 1,
        ticksToMilliseconds 5⟩ := by
  have e1 : getRuntimeInMilliseconds2 (stubDispatch launch).uploadBeginn
      (stubDispatch launch).uploadEnd = .ok (ticksToMilliseconds 1) :=
    completedEvent_markers 2 1 (by norm_num) (by norm_num)
  have e2 : getRuntimeInMilliseconds (stubDispatch launch).event =
      .ok (ticksToMilliseconds launch) := completedEvent_runtime launch hl
  have e3 : getRuntimeInMilliseconds2 (stubDispatch launch).downloadBeginn
      (stubDispatch launch).downloadEnd = .ok (ticksToMilliseconds 1) :=
    completedEvent_markers 4 3 (by norm_num) (by norm_num)
  have e4 : getRuntimeInMilliseconds2 (stubDispatch launch).totalBeginn
      (stubDispatch launch).totalEnd = .ok (ticksToMilliseconds 5) :=
    completedEvent_markers 5 0 (by norm_num) (by norm_num)
  unfold executeKernel
  simp only [issue_eq, uploadAndBind_eq, forEachArg_eq, Run.bind_ok, Run.ofExcept,
    e1, e2, e3, e4, Run.pure_eq]

/-! ## Timing extraction: claims C7 and C8 -/

/-- C8: variant (b) of the timing extractor, on two markers whose submission counters can be
read, returns a value that is never negative, and returns exactly zero when the two
submission counters are equal. -/
theorem getRuntimeInMilliseconds2_nonneg (start end_ : Event)
    (hs : start.submitErr = CL_SUCCESS) (he : end_.submitErr = CL_SUCCESS) :
    ∃ v : ℚ, getRuntimeInMilliseconds2 start end_ = .ok v ∧ 0 ≤ v ∧
      (start.submit = end_.submit → v = 0) := by
  refine ⟨_, getRuntimeInMilliseconds2_ok start end_ hs he, ticksToMilliseconds_nonneg _, ?_⟩
  intro h
  rw [h, cl_ulong_sub_self, ticksToMilliseconds_zero]

/-- Two markers submitted at the same instant, counter value 7. -/
theorem getRuntimeInMilliseconds2_nonneg_witness :
    ∃ v : ℚ, getRuntimeInMilliseconds2 (completedEvent 7 9) (completedEvent 7 8) = .ok v ∧
      0 ≤ v ∧ ((completedEvent 7 9).submit = (completedEvent 7 8).submit → v = 0) :=
  getRuntimeInMilliseconds2_nonneg (completedEvent 7 9) (completedEvent 7 8) rfl rfl

/-- C7, as the code has it: for 64-bit counters with `end < start` neither variant fails;
each returns the duration the extractor computes from the wrapped unsigned difference
`2^64 - (start - end)`, and that duration is positive. -/
theorem getRuntimeInMilliseconds_wraps (start end_ : Nat) (e s1 s2 : Event)
    (hstart : start < 2 ^ 64) (hlt : end_ < start)
    (hes : e.startErr = CL_SUCCESS) (hee : e.endErr = CL_SUCCESS)
    (he1 : e.start = start) (he2 : e.end_ = end_)
    (hs1 : s1.submitErr = CL_SUCCESS) (hs2 : s2.submitErr = CL_SUCCESS)
    (hs3 : s1.submit = start) (hs4 : s2.submit = end_) :
    getRuntimeInMilliseconds e = .ok (ticksToMilliseconds (2 ^ 64 - (start - end_))) ∧
    getRuntimeInMilliseconds2 s1 s2 = .ok (ticksToMilliseconds (2 ^ 64 - (start - end_))) ∧
    0 < ticksToMilliseconds (2 ^ 64 - (start - end_)) := by
  refine ⟨?_, ?_, ticksToMilliseconds_pos (by omega)⟩
  · rw [getRuntimeInMilliseconds_ok e hes hee, he1, he2, cl_ulong_sub_of_lt hstart hlt]
  · rw [getRuntimeInMilliseconds2_ok s1 s2 hs1 hs2, hs3, hs4, cl_ulong_sub_of_lt hstart hlt]

/-- Counters `start = 5000` and `end = 1000`, read by either variant. -/
theorem getRuntimeInMilliseconds_wraps_witness :
    getRuntimeInMilliseconds (completedEvent 5000 1000) =
      .ok (ticksToMilliseconds (2 ^ 64 - (5000 - 1000))) ∧
    getRuntimeInMilliseconds2 (completedEvent 5000 5000) (completedEvent 1000 1000) =
      .ok (ticksToMilliseconds (2 ^ 64 - (5000 - 1000))) ∧
    0 < ticksToMilliseconds (2 ^ 64 - (5000 - 1000)) :=
  getRuntimeInMilliseconds_wraps 5000 1000 (completedEvent 5000 1000)
    (completedEvent 5000 5000) (completedEvent 1000 1000) (by norm_num) (by norm_num)
    rfl rfl rfl rfl rfl rfl rfl rfl

/-- C7 fails as stated: with `start = 1` and `end = 0` both variants return
`18446744027136` milliseconds, the `float` nearest to `(2^64 - 1) * 1e-6`, far above
`|end - start| * 1e-6`. -/
theorem getRuntimeInMilliseconds_not_tiny :
    getRuntimeInMilliseconds (completedEvent 1 0) = .ok 18446744027136 ∧
    getRuntimeInMilliseconds2 (completedEvent 1 1) (completedEvent 0 0) =
      .ok 18446744027136 ∧
    ¬ (|(18446744027136 : ℚ)| ≤ |((0 : Nat) : ℚ) - ((1 : Nat) : ℚ)| * (1 / 1000000)) := by
  refine ⟨?_, ?_, ?_⟩
  · rw [getRuntimeInMilliseconds_ok _ rfl rfl]
    simp only [completedEvent]
    rw [cl_ulong_sub_of_lt (by norm_num) (by norm_num)]
    exact congrArg Except.ok ticksToMilliseconds_max
  · rw [getRuntimeInMilliseconds2_ok _ _ rfl rfl]
    simp only [completedEvent]
    rw [cl_ulong_sub_of_lt (by norm_num) (by norm_num)]
    exact congrArg Except.ok ticksToMilliseconds_max
  · norm_num [abs_of_pos]

/-! ## Dispatch: claim C9 -/

/-- C9: in a completed `executeKernel` call the requests are, in this order: the two opening
markers; for each argument in list order its upload immediately followed by its binding at
its zero-based list position; the upload-end marker; the kernel launch; the download-begin
marker; the downloads in list order; the two closing markers.  In particular the upload of
argument `i` is request `2 + 2 * i`, its binding, at index `i`, is the next request, the
launch is request `2 + 2 * n + 1` and the download of argument `i` is request
`2 + 2 * n + 3 + i`, where `n` is the number of arguments. -/
theorem executeKernel_argument_order (dev : DispatchEvents) (kernel : Kernel)
    (l1 l2 l3 g1 g2 g3 : Int) (args : List α) (t : KernelTime)
    (h : (executeKernel dev kernel l1 l2 l3 g1 g2 g3 args).result = .ok t) :
    (executeKernel dev kernel l1 l2 l3 g1 g2 g3 args).trace =
      [Op.enqueueMarker .totalBeginn, Op.enqueueMarker .uploadBeginn]
      ++ (args.enum.flatMap fun p => [Op.upload p.2, Op.setAsKernelArg p.2 kernel p.1])
      ++ [Op.enqueueMarker .uploadEnd,
          Op.enqueue kernel ⟨toClUint g1, toClUint g2, toClUint g3⟩
            ⟨toClUint l1, toClUint l2, toClUint l3⟩,
          Op.enqueueMarker .downloadBeginn]
      ++ args.map Op.download
      ++ [Op.enqueueMarker .downloadEnd, Op.enqueueMarker .totalEnd] ∧
    (executeKernel dev kernel l1 l2 l3 g1 g2 g3 args).trace[2 + 2 * args.length + 1]? =
        some (Op.enqueue kernel ⟨toClUint g1, toClUint g2, toClUint g3⟩
            ⟨toClUint l1, toClUint l2, toClUint l3⟩) ∧
    ∀ (i : Nat) (hi : i < args.length),
      (executeKernel dev kernel l1 l2 l3 g1 g2 g3 args).trace[2 + 2 * i]? =
        some (Op.upload (args.get ⟨i, hi⟩)) ∧
      (executeKernel dev kernel l1 l2 l3 g1 g2 g3 args).trace[2 + 2 * i + 1]? =
        some (Op.setAsKernelArg (args.get ⟨i, hi⟩) kernel i) ∧
      (executeKernel dev kernel l1 l2 l3 g1 g2 g3 args).trace[2 + 2 * args.length + 3 + i]? =
        some (Op.download (args.get ⟨i, hi⟩)) :=
  ⟨executeKernel_trace dev kernel l1 l2 l3 g1 g2 g3 args t h,
    executeKernel_positions dev kernel l1 l2 l3 g1 g2 g3 args t h⟩

/-- A completed dispatch with the two arguments `10` and `11`. -/
theorem executeKernel_argument_order_witness :
    (executeKernel (stubDispatch 4000) .plain 16 16 1 64 64 1 [10, 11]).trace =
      [Op.enqueueMarker .totalBeginn, Op.enqueueMarker .uploadBeginn,
        Op.upload 10, Op.setAsKernelArg 10 .plain 0,
        Op.upload 11, Op.setAsKernelArg 11 .plain 1,
        Op.enqueueMarker .uploadEnd, Op.enqueue .plain ⟨64, 64, 1⟩ ⟨16, 16, 1⟩,
        Op.enqueueMarker .downloadBeginn, Op.download 10, Op.download 11,
        Op.enqueueMarker .downloadEnd, Op.enqueueMarker .totalEnd] :=
  (executeKernel_argument_order (stubDispatch 4000) .plain 16 16 1 64 64 1
    [10, 11] _ (stubDispatch_result 4000 (by norm_num) .plain 16 16 1 64 64 1 [10, 11])).1.trans
    (by decide)

/-! ## Evaluate: shared facts -/

theorem getRuntimeInMilliseconds_value {e : Event} {v : ℚ}
    (h : getRuntimeInMilliseconds e = .ok v) :
    v = ticksToMilliseconds (cl_ulong_sub e.end_ e.start) := by
  by_cases hs : e.startErr = CL_SUCCESS
  · by_cases he : e.endErr = CL_SUCCESS
    · rw [getRuntimeInMilliseconds_ok e hs he] at h
      cases h
      rfl
    · unfold getRuntimeInMilliseconds ASSERT at h
      rw [if_pos hs, if_neg he] at h
      cases h
  · unfold getRuntimeInMilliseconds ASSERT at h
    rw [if_neg hs] at h
    cases h

theorem getRuntimeInMilliseconds_nonneg {e : Event} {v : ℚ}
    (h : getRuntimeInMilliseconds e = .ok v) : 0 ≤ v := by
  rw [getRuntimeInMilliseconds_value h]
  exact ticksToMilliseconds_nonneg _

theorem getRuntimeInMilliseconds_representable {e : Event} {v : ℚ}
    (h : getRuntimeInMilliseconds e = .ok v) : Representable 53 v := by
  rw [getRuntimeInMilliseconds_value h]
  exact (ticksToMilliseconds_representable _).mono (by norm_num)

theorem vecRead_ok_iff (v : List ℚ) (idx : Int) :
    (∃ x, vecRead v idx = .ok x) ↔ 0 ≤ idx ∧ idx < v.length := by
  unfold vecRead
  by_cases h0 : 0 ≤ idx
  · rw [if_pos h0]
    by_cases hlt : idx.toNat < v.length
    · rw [List.getElem?_eq_getElem hlt]
      simp only [Except.ok.injEq, exists_eq', true_iff]
      exact ⟨h0, by omega⟩
    · rw [List.getElem?_eq_none (by omega)]
      simp only [reduceCtorEq, exists_false, false_iff, not_and]
      intro _
      omega
  · rw [if_neg h0]
    simp only [reduceCtorEq, exists_false, false_iff, not_and]
    intro h
    exact absurd h h0

theorem median_ok_iff (v : List ℚ) (N : Int) :
    (∃ m, median v N = .ok m) ↔ ∀ idx ∈ medianIndices N, 0 ≤ idx ∧ idx < v.length := by
  unfold median medianIndices
  by_cases hpar : Int.tmod N 2 = 0
  · rw [if_pos hpar, if_pos hpar]
    simp only [List.mem_cons, List.mem_singleton, List.not_mem_nil, or_false, forall_eq_or_imp,
      forall_eq, ← vecRead_ok_iff]
    constructor
    · rintro ⟨m, hm⟩
      cases hhi : vecRead v (Int.tdiv N 2) with
      | error e => rw [hhi] at hm; cases hm
      | ok hi =>
        cases hlo : vecRead v (Int.tdiv N 2 - 1) with
        | error e => rw [hhi, hlo] at hm; cases hm
        | ok lo => exact ⟨⟨hi, rfl⟩, ⟨lo, rfl⟩⟩
    · rintro ⟨⟨hi, hhi⟩, ⟨lo, hlo⟩⟩
      rw [hhi, hlo]
      exact ⟨_, rfl⟩
  · rw [if_neg hpar, if_neg hpar]
    simp only [List.mem_singleton, forall_eq, ← vecRead_ok_iff]

theorem medianIndices_inBounds_iff (N : Int) :
    (∀ idx ∈ medianIndices N, 0 ≤ idx ∧ idx < N) ↔ 1 ≤ N := by
  constructor
  · intro h
    have hmem : Int.tdiv N 2 ∈ medianIndices N := by
      unfold medianIndices
      split <;> simp
    have := h _ hmem
    omega
  · intro hN
    have hd : Int.tdiv N 2 = N / 2 := Int.tdiv_eq_ediv (by omega) (by norm_num)
    have hm : Int.tmod N 2 = N % 2 := Int.tmod_eq_emod (by omega) (by norm_num)
    unfold medianIndices
    rw [hd, hm]
    split
    · intro idx hidx
      simp only [List.mem_cons, List.mem_singleton, List.not_mem_nil, or_false] at hidx
      rcases hidx with rfl | rfl <;> omega
    · intro idx hidx
      simp only [List.mem_singleton] at hidx
      subst hidx
      omega

theorem evaluate_complete (dev : EvalDevice) (l1 l2 l3 g1 g2 g3 : Int) (args : List α)
    (N : Nat) (T t : ℚ) (r : Nat → ℚ)
    (hwg : dev.wgErr = CL_SUCCESS) (hpm : dev.pmErr = CL_SUCCESS)
    (h1 : 0 < l1) (h2 : 0 < l2) (h3 : 0 < l3) (hint : dev.wg_size < 2 ^ 31)
    (hfit : l1 * l2 * l3 ≤ dev.wg_size)
    (hprobe : getRuntimeInMilliseconds dev.probeEvent = .ok t) (hpt : t ≤ T)
    (hrun : ∀ i, i < N → getRuntimeInMilliseconds (dev.runEvent i) = .ok (r i))
    (hle : ∀ i, i < N → r i ≤ T) :
    evaluate dev l1 l2 l3 g1 g2 g3 args (N : Int) T =
      ⟨probeTrace l1 l2 l3 g1 g2 g3 args ++
        ([Op.build .plain] ++ (args.enum.map fun p => Op.setAsKernelArg p.2 .plain p.1)
          ++ List.replicate N (Op.enqueue .plain ⟨toClUint g1, toClUint g2, toClUint g3⟩
              ⟨toClUint l1, toClUint l2, toClUint l3⟩)
          ++ args.map Op.download),
        median (((List.range N).map r).insertionSort (· ≤ ·)) N⟩ := by
  rw [evaluate_probe_run dev l1 l2 l3 g1 g2 g3 args N T t hwg hpm h1 h2 h3 hint hfit hprobe,
    if_neg (not_lt.mpr hpt), actualRun_complete dev _ _ args T r N hrun hle]

theorem evaluate_exceeds (dev : EvalDevice) (l1 l2 l3 g1 g2 g3 : Int) (args : List α)
    (N k : Nat) (T t : ℚ) (r : Nat → ℚ)
    (hwg : dev.wgErr = CL_SUCCESS) (hpm : dev.pmErr = CL_SUCCESS)
    (h1 : 0 < l1) (h2 : 0 < l2) (h3 : 0 < l3) (hint : dev.wg_size < 2 ^ 31)
    (hfit : l1 * l2 * l3 ≤ dev.wg_size)
    (hprobe : getRuntimeInMilliseconds dev.probeEvent = .ok t) (hpt : t ≤ T) (hk : k < N)
    (hrun : ∀ i, i ≤ k → getRuntimeInMilliseconds (dev.runEvent i) = .ok (r i))
    (hle : ∀ i, i < k → r i ≤ T) (hgt : T < r k) :
    evaluate dev l1 l2 l3 g1 g2 g3 args (N : Int) T =
      ⟨probeTrace l1 l2 l3 g1 g2 g3 args ++
        ([Op.build .plain] ++ (args.enum.map fun p => Op.setAsKernelArg p.2 .plain p.1)
          ++ List.replicate (k + 1) (Op.enqueue .plain ⟨toClUint g1, toClUint g2, toClUint g3⟩
              ⟨toClUint l1, toClUint l2, toClUint l3⟩)
          ++ args.map Op.download),
        .ok (r k)⟩ := by
  rw [evaluate_probe_run dev l1 l2 l3 g1 g2 g3 args N T t hwg hpm h1 h2 h3 hint hfit hprobe,
    if_neg (not_lt.mpr hpt), actualRun_exceeds dev _ _ args T r N k hk hrun hle hgt]

theorem median_of_sorted (s : List ℚ) (N : Nat) (hN : 1 ≤ N) (hlen : s.length = N)
    (hsorted : s.Sorted (· ≤ ·)) (hrep : ∀ x ∈ s, Representable 53 x) :
    ∃ m, median s N = .ok m ∧
      (N % 2 = 1 → s[N / 2]? = some m) ∧
      (N % 2 = 0 → ∃ lo hi, s[N / 2 - 1]? = some lo ∧ s[N / 2]? = some hi ∧
        m = toDouble ((lo + hi) / 2) ∧ lo ≤ m ∧ m ≤ hi ∧
        (Representable 53 (lo + hi) → m = (lo + hi) / 2)) := by
  have hmid : N / 2 < s.length := by omega
  rcases Nat.mod_two_eq_zero_or_one N with heven | hodd
  · have hlow : N / 2 - 1 < s.length := by omega
    have hle : s.get ⟨N / 2 - 1, hlow⟩ ≤ s.get ⟨N / 2, hmid⟩ :=
      hsorted.rel_get_of_le (by simp)
    have hrlo := hrep _ (List.get_mem s (N / 2 - 1) hlow)
    have hrhi := hrep _ (List.get_mem s (N / 2) hmid)
    refine ⟨_, median_even s N hN heven hmid, fun h => by omega, fun _ => ?_⟩
    refine ⟨s.get ⟨N / 2 - 1, hlow⟩, s.get ⟨N / 2, hmid⟩, List.getElem?_eq_getElem _,
      List.getElem?_eq_getElem _, ?_, (doubleAverage_between hrhi hrlo hle).1,
      (doubleAverage_between hrhi hrlo hle).2, fun h => ?_⟩
    · rw [doubleAverage_eq_round hrhi.nonneg hrlo.nonneg, add_comm]
    · rw [doubleAverage_exact hrhi.nonneg hrlo.nonneg (by rw [add_comm]; exact h), add_comm]
  · refine ⟨_, median_odd s N hodd hmid, fun _ => ?_, fun h => by omega⟩
    exact List.getElem?_eq_getElem _

/-! ## Evaluate: claims C1, C5 and C10 -/

/-- C1: when the two kernel queries succeed, the requested local size fits the reported
work-group size, the probe does not exceed the timeout and none of the `N ≥ 1` measured
runtimes `r 0, …, r (N-1)` exceeds the timeout, `evaluate` returns their median: for every
ascending arrangement `s` of the runtimes, the result is `s[N/2]` when `N` is odd, and when
`N` is even it is the average of `s[N/2 - 1]` and `s[N/2]` as a `double`: the nearest
`double` to the average, a value between the two elements, and the average itself
whenever their sum is a `double`. -/
theorem evaluate_returns_median (dev : EvalDevice) (l1 l2 l3 g1 g2 g3 : Int)
    (args : List α) (N : Nat) (T t : ℚ) (r : Nat → ℚ) (hN : 1 ≤ N)
    (hwg : dev.wgErr = CL_SUCCESS) (hpm : dev.pmErr = CL_SUCCESS)
    (h1 : 0 < l1) (h2 : 0 < l2) (h3 : 0 < l3) (hint : dev.wg_size < 2 ^ 31)
    (hfit : l1 * l2 * l3 ≤ dev.wg_size)
    (hprobe : getRuntimeInMilliseconds dev.probeEvent = .ok t) (hpt : t ≤ T)
    (hrun : ∀ i, i < N → getRuntimeInMilliseconds (dev.runEvent i) = .ok (r i))
    (hle : ∀ i, i < N → r i ≤ T) :
    ∃ m, (evaluate dev l1 l2 l3 g1 g2 g3 args (N : Int) T).result = .ok m ∧
      ∀ s : List ℚ, s.Perm ((List.range N).map r) → s.Sorted (· ≤ ·) →
        (N % 2 = 1 → s[N / 2]? = some m) ∧
        (N % 2 = 0 → ∃ lo hi, s[N / 2 - 1]? = some lo ∧ s[N / 2]? = some hi ∧
          m = toDouble ((lo + hi) / 2) ∧ lo ≤ m ∧ m ≤ hi ∧
          (Representable 53 (lo + hi) → m = (lo + hi) / 2)) := by
  rw [evaluate_complete dev l1 l2 l3 g1 g2 g3 args N T t r hwg hpm h1 h2 h3 hint hfit hprobe
    hpt hrun hle]
  have hrep : ∀ x ∈ ((List.range N).map r).insertionSort (· ≤ ·), Representable 53 x := by
    intro x hx
    rw [(List.perm_insertionSort _ _).mem_iff] at hx
    obtain ⟨i, hi, rfl⟩ := List.mem_map.mp hx
    rw [List.mem_range] at hi
    exact getRuntimeInMilliseconds_representable (hrun i hi)
  obtain ⟨m, hm, hspec⟩ := median_of_sorted (((List.range N).map r).insertionSort (· ≤ ·)) N hN
    (by simp [List.length_insertionSort]) (List.sorted_insertionSort _ _) hrep
  refine ⟨m, hm, fun s hperm hsorted => ?_⟩
  have hs : s = ((List.range N).map r).insertionSort (· ≤ ·) :=
    List.eq_of_perm_of_sorted (hperm.trans (List.perm_insertionSort _ _).symm) hsorted
      (List.sorted_insertionSort _ _)
  rw [hs]
  exact hspec

/-- The runtimes 5, 1, 3 ms give the median 3 and the runtimes 5, 1, 3, 7 ms give 4. -/
theorem evaluate_returns_median_witness :
    (evaluate (stubDevice 64 (completedEvent 0 0)
        [completedEvent 0 5000000, completedEvent 0 1000000, completedEvent 0 3000000])
      1 1 1 1 1 1 [10, 11] ((3 : Nat) : Int) 100).result = .ok 3 ∧
    (evaluate (stubDevice 64 (completedEvent 0 0)
        [completedEvent 0 5000000, completedEvent 0 1000000, completedEvent 0 3000000,
          completedEvent 0 7000000])
      1 1 1 1 1 1 [10, 11] ((4 : Nat) : Int) 100).result = .ok 4 := by
  constructor
  · obtain ⟨m, hm, hs⟩ := evaluate_returns_median (stubDevice 64 (completedEvent 0 0)
        [completedEvent 0 5000000, completedEvent 0 1000000, completedEvent 0 3000000])
      1 1 1 1 1 1 [10, 11] 3 100 0 (fun i => ([5, 1, 3] : List ℚ).getD i 0)
      (by norm_num) rfl rfl (by norm_num) (by norm_num) (by norm_num)
      (by norm_num [stubDevice]) (by norm_num [stubDevice]) runtime_0ms (by norm_num)
      (fun i hi => by
        interval_cases i
        · exact runtime_5ms
        · exact runtime_1ms
        · exact runtime_3ms)
      (fun i hi => by interval_cases i <;> norm_num)
    have h := (hs [1, 3, 5] (by decide) (by norm_num)).1 (by norm_num)
    rw [hm]
    simp at h
    rw [← h]
  · obtain ⟨m, hm, hs⟩ := evaluate_returns_median (stubDevice 64 (completedEvent 0 0)
        [completedEvent 0 5000000, completedEvent 0 1000000, completedEvent 0 3000000,
          completedEvent 0 7000000])
      1 1 1 1 1 1 [10, 11] 4 100 0 (fun i => ([5, 1, 3, 7] : List ℚ).getD i 0)
      (by norm_num) rfl rfl (by norm_num) (by norm_num) (by norm_num)
      (by norm_num [stubDevice]) (by norm_num [stubDevice]) runtime_0ms (by norm_num)
      (fun i hi => by
        interval_cases i
        · exact runtime_5ms
        · exact runtime_1ms
        · exact runtime_3ms
        · exact runtime_7ms)
      (fun i hi => by interval_cases i <;> norm_num)
    obtain ⟨lo, hi, hlo, hhi, -, -, -, hexact⟩ :=
      (hs [1, 3, 5, 7] (by decide) (by norm_num)).2 (by norm_num)
    simp at hlo hhi
    subst hlo hhi
    rw [hm, hexact ⟨8, 0, by norm_num, by norm_num⟩]
    norm_num

/-- C10: the indices read by the median step lie within `[0, N)` exactly when `N ≥ 1`; the
step yields a value exactly when every index it reads is within the vector; for `N = 0`
it reads the indices `0` and `-1`; and a call with `N = 0` whose probe passes never
launches the actual kernel and faults on the out-of-range read of the empty vector. -/
theorem evaluate_median_reads (dev : EvalDevice) (l1 l2 l3 g1 g2 g3 : Int)
    (args : List α) (T t : ℚ)
    (hwg : dev.wgErr = CL_SUCCESS) (hpm : dev.pmErr = CL_SUCCESS)
    (h1 : 0 < l1) (h2 : 0 < l2) (h3 : 0 < l3) (hint : dev.wg_size < 2 ^ 31)
    (hfit : l1 * l2 * l3 ≤ dev.wg_size)
    (hprobe : getRuntimeInMilliseconds dev.probeEvent = .ok t) (hpt : t ≤ T) :
    (∀ N : Int, (∀ idx ∈ medianIndices N, 0 ≤ idx ∧ idx < N) ↔ 1 ≤ N) ∧
    (∀ (v : List ℚ) (N : Int),
      (∃ m, median v N = .ok m) ↔ ∀ idx ∈ medianIndices N, 0 ≤ idx ∧ idx < v.length) ∧
    medianIndices 0 = [0, -1] ∧
    (evaluate dev l1 l2 l3 g1 g2 g3 args 0 T).result = .error .outOfRange ∧
    (∀ g l, Op.enqueue .plain g l ∉ (evaluate dev l1 l2 l3 g1 g2 g3 args 0 T).trace) := by
  have h := evaluate_complete dev l1 l2 l3 g1 g2 g3 args 0 T t (fun _ => 0) hwg hpm h1 h2 h3
    hint hfit hprobe hpt (fun i hi => absurd hi (Nat.not_lt_zero i))
    (fun i hi => absurd hi (Nat.not_lt_zero i))
  rw [Nat.cast_zero] at h
  refine ⟨medianIndices_inBounds_iff, median_ok_iff, by decide, ?_, ?_⟩
  · rw [h]
    rfl
  · intro g l
    rw [h]
    simp [probeTrace]

/-- A call with zero iterations on a device whose probe passes. -/
theorem evaluate_median_reads_witness :
    (evaluate (stubDevice 64 (completedEvent 0 0) []) 1 1 1 1 1 1 [10, 11] 0 100).result
      = .error .outOfRange :=
  (evaluate_median_reads (stubDevice 64 (completedEvent 0 0) []) 1 1 1 1 1 1 [10, 11] 100 0
    rfl rfl (by norm_num) (by norm_num) (by norm_num)
    (by norm_num [stubDevice]) (by norm_num [stubDevice])
    runtime_0ms (by norm_num)).2.2.2.1

/-! ## Evaluate: claims C2, C3 and C4 -/

/-- The rejection the code performs when the `int` product of the local sizes is defined:
for positive local sizes whose product fits a 32-bit signed `int` and exceeds the reported
work-group size, `evaluate` returns `-1` after the uploads and the build of the guarded
kernel, without launching any kernel. -/
theorem evaluate_rejects_oversized (dev : EvalDevice) (l1 l2 l3 g1 g2 g3 : Int)
    (args : List α) (iterations : Int) (T : ℚ)
    (hwg : dev.wgErr = CL_SUCCESS) (hpm : dev.pmErr = CL_SUCCESS)
    (h1 : 0 < l1) (h2 : 0 < l2) (h3 : 0 < l3) (hhi : l1 * l2 * l3 < 2 ^ 31)
    (hbig : dev.wg_size < l1 * l2 * l3) :
    (evaluate dev l1 l2 l3 g1 g2 g3 args iterations T).result = .ok (-1) ∧
    ∀ k g l, Op.enqueue k g l ∉ (evaluate dev l1 l2 l3 g1 g2 g3 args iterations T).trace := by
  rw [evaluate_rejected dev l1 l2 l3 g1 g2 g3 args iterations T hwg hpm h1 h2 h3 hhi hbig]
  refine ⟨rfl, fun k g l => ?_⟩
  simp

/-- The local sizes `(16, 16, 1)` on a device that reports a work-group size of 64. -/
theorem evaluate_rejects_oversized_example :
    (evaluate (stubDevice 64 (completedEvent 0 0) []) 16 16 1 64 64 1 [10, 11] 3 100).result
      = .ok (-1) ∧
    ∀ k g l, Op.enqueue k g l ∉
      (evaluate (stubDevice 64 (completedEvent 0 0) []) 16 16 1 64 64 1 [10, 11] 3 100).trace :=
  evaluate_rejects_oversized (stubDevice 64 (completedEvent 0 0) []) 16 16 1 64 64 1 [10, 11]
    3 100 rfl rfl (by norm_num) (by norm_num) (by norm_num) (by norm_num)
    (by norm_num [stubDevice])

/-- C2 at a failing input: for the local sizes `(65536, 65536, 1)` and a reported work-group
size of 64 the product `2^32` exceeds 64, but the `int` in which the code computes it
wraps around to 0, the size check passes, and the call binds the arguments, launches the
guarded kernel and the actual kernel with that local size and returns the measured runtime
instead of `-1`. -/
theorem evaluate_local_product_overflow :
    (64 : Int) < 65536 * 65536 * 1 ∧
    intMul (intMul 65536 65536) 1 = 0 ∧
    evaluate (stubDevice 64 (completedEvent 0 0) [completedEvent 0 1000000])
        65536 65536 1 65536 65536 1 [10, 11] ((1 : Nat) : Int) 100
      = ⟨[Op.upload 10, Op.upload 11, Op.build .guarded,
          Op.setAsKernelArg 10 .guarded 0, Op.setAsKernelArg 11 .guarded 1,
          Op.enqueue .guarded ⟨65536, 65536, 1⟩ ⟨65536, 65536, 1⟩,
          Op.build .plain, Op.setAsKernelArg 10 .plain 0, Op.setAsKernelArg 11 .plain 1,
          Op.enqueue .plain ⟨65536, 65536, 1⟩ ⟨65536, 65536, 1⟩,
          Op.download 10, Op.download 11], .ok 1⟩ := by
  have hmul : intMul (intMul 65536 65536) 1 = 0 := by decide
  have hrun : getRuntimeInMilliseconds ((stubDevice 64 (completedEvent 0 0)
      [completedEvent 0 1000000]).runEvent 0) = .ok 1 := runtime_1ms
  refine ⟨by norm_num, hmul, ?_⟩
  rw [evaluate_check_passed (stubDevice 64 (completedEvent 0 0) [completedEvent 0 1000000])
      65536 65536 1 65536 65536 1 [10, 11] _ 100 0 rfl rfl
      (by rw [hmul]; norm_num [stubDevice])
      runtime_0ms,
    if_neg (by norm_num),
    actualRun_complete _ _ _ [10, 11] 100 (fun _ => 1) 1
      (fun i hi => by interval_cases i; exact hrun) (fun i _ => by norm_num)]
  have hmed : median (((List.range 1).map fun _ => (1 : ℚ)).insertionSort (· ≤ ·))
      ((1 : Nat) : Int) = .ok 1 := median_odd [1] 1 rfl (by simp)
  have e : toClUint 65536 = 65536 := by decide
  have e1 : toClUint 1 = 1 := by decide
  rw [hmed, e, e1]
  rfl

/-- C3, as the code has it: when the two kernel queries succeed, the size check passes and
the probe runtime `p` exceeds the timeout `T`, `evaluate` returns `-p` right after the
launch of the guarded kernel, so no launch of the actual run takes place.  The value `-p`
is never positive, it is negative whenever `T ≥ 0`, and it differs from `-1` exactly when
`p ≠ 1`. -/
theorem evaluate_probe_timeout (dev : EvalDevice) (l1 l2 l3 g1 g2 g3 : Int)
    (args : List α) (iterations : Int) (T p : ℚ)
    (hwg : dev.wgErr = CL_SUCCESS) (hpm : dev.pmErr = CL_SUCCESS)
    (h1 : 0 < l1) (h2 : 0 < l2) (h3 : 0 < l3) (hint : dev.wg_size < 2 ^ 31)
    (hfit : l1 * l2 * l3 ≤ dev.wg_size)
    (hprobe : getRuntimeInMilliseconds dev.probeEvent = .ok p) (hgt : T < p) :
    (evaluate dev l1 l2 l3 g1 g2 g3 args iterations T).result = .ok (-p) ∧
    (evaluate dev l1 l2 l3 g1 g2 g3 args iterations T).trace =
      probeTrace l1 l2 l3 g1 g2 g3 args ∧
    (∀ g l, Op.enqueue .plain g l ∉ (evaluate dev l1 l2 l3 g1 g2 g3 args iterations T).trace) ∧
    -p ≤ 0 ∧ (0 ≤ T → -p < 0) ∧ (-p ≠ -1 ↔ p ≠ 1) := by
  have hp := getRuntimeInMilliseconds_nonneg hprobe
  rw [evaluate_probe_run dev l1 l2 l3 g1 g2 g3 args iterations T p hwg hpm h1 h2 h3 hint hfit
    hprobe, if_pos hgt]
  refine ⟨rfl, rfl, fun g l => ?_, by linarith, fun hT => by linarith, ?_⟩
  · simp [probeTrace]
  · rw [Ne, Ne, neg_inj]

/-- A probe of 4000 ns, measured as the `float` nearest to 0.004 ms, under a timeout of
`1/1024` ms. -/
theorem evaluate_probe_timeout_witness :
    (evaluate (stubDevice 64 (completedEvent 1000 5000) []) 16 2 1 64 64 1 [10, 11] 3
      (1 / 1024)).result = .ok (-(8589935 / 2147483648)) ∧
    ∀ g l, Op.enqueue .plain g l ∉
      (evaluate (stubDevice 64 (completedEvent 1000 5000) []) 16 2 1 64 64 1 [10, 11] 3
        (1 / 1024)).trace :=
  have h := evaluate_probe_timeout (stubDevice 64 (completedEvent 1000 5000) []) 16 2 1 64 64 1
    [10, 11] 3 (1 / 1024) (8589935 / 2147483648) rfl rfl (by norm_num) (by norm_num)
    (by norm_num) (by norm_num [stubDevice]) (by norm_num [stubDevice])
    runtime_4000ns (by norm_num)
  ⟨h.1, h.2.2.1⟩

/-- C3 fails as stated: with timeout 0.5 ms a probe that runs exactly 1 ms exceeds the
timeout and the call returns `-1`, the very value of the static rejection (returned here for
local sizes `(16, 16, 1)` on a device reporting 64); and with timeout `-1` a probe whose
runtime is 0 exceeds the timeout and the call returns 0, which is not negative. -/
theorem evaluate_probe_timeout_ambiguous :
    getRuntimeInMilliseconds (completedEvent 0 1000000) = .ok 1 ∧ (1 / 2 : ℚ) < 1 ∧
    (evaluate (stubDevice 64 (completedEvent 0 1000000) []) 1 1 1 1 1 1 [10, 11] 3
      (1 / 2)).result = .ok (-1) ∧
    (evaluate (stubDevice 64 (completedEvent 0 1000000) []) 16 16 1 64 64 1 [10, 11] 3
      (1 / 2)).result = .ok (-1) ∧
    getRuntimeInMilliseconds (completedEvent 0 0) = .ok 0 ∧ (-1 : ℚ) < 0 ∧
    (evaluate (stubDevice 64 (completedEvent 0 0) []) 1 1 1 1 1 1 [10, 11] 3
      (-1)).result = .ok 0 ∧ ¬ ((0 : ℚ) < 0) := by
  refine ⟨runtime_1ms, by norm_num, ?_, ?_, runtime_0ms, by norm_num, ?_, lt_irrefl _⟩
  · rw [evaluate_probe_run (stubDevice 64 (completedEvent 0 1000000) []) 1 1 1 1 1 1 [10, 11]
      3 (1 / 2) 1 rfl rfl (by norm_num) (by norm_num) (by norm_num) (by norm_num [stubDevice])
      (by norm_num [stubDevice]) runtime_1ms, if_pos (by norm_num)]
  · rw [evaluate_rejected (stubDevice 64 (completedEvent 0 1000000) []) 16 16 1 64 64 1
      [10, 11] 3 (1 / 2) rfl rfl (by norm_num) (by norm_num) (by norm_num) (by norm_num)
      (by norm_num [stubDevice])]
  · rw [evaluate_probe_run (stubDevice 64 (completedEvent 0 0) []) 1 1 1 1 1 1 [10, 11]
      3 (-1) 0 rfl rfl (by norm_num) (by norm_num) (by norm_num) (by norm_num [stubDevice])
      (by norm_num [stubDevice]) runtime_0ms, if_pos (by norm_num)]
    simp

/-- C4 at failing inputs: with timeout 0 a probe of 4000 ns, measured as the `float`
nearest to 0.004 ms, makes `evaluate` return the negative of that value without any launch
of the actual run; and with timeout 0 and a probe whose runtime is 0, runtimes of 5, 1 and
3 ms make it return 5 after the first launch, not the median 3. -/
theorem evaluate_zero_timeout_exits_early :
    evaluate (stubDevice 64 (completedEvent 1000 5000)
        [completedEvent 0 5000000, completedEvent 0 1000000, completedEvent 0 3000000])
      1 1 1 1 1 1 [10, 11] ((3 : Nat) : Int) 0
      = ⟨probeTrace 1 1 1 1 1 1 [10, 11], .ok (-(8589935 / 2147483648))⟩ ∧
    evaluate (stubDevice 64 (completedEvent 0 0)
        [completedEvent 0 5000000, completedEvent 0 1000000, completedEvent 0 3000000])
      1 1 1 1 1 1 [10, 11] ((3 : Nat) : Int) 0
      = ⟨probeTrace 1 1 1 1 1 1 [10, 11] ++
          [Op.build .plain, Op.setAsKernelArg 10 .plain 0, Op.setAsKernelArg 11 .plain 1,
            Op.enqueue .plain ⟨1, 1, 1⟩ ⟨1, 1, 1⟩, Op.download 10, Op.download 11],
          .ok 5⟩ := by
  constructor
  · rw [evaluate_probe_run (stubDevice 64 (completedEvent 1000 5000) _) 1 1 1 1 1 1 [10, 11]
      _ 0 _ rfl rfl (by norm_num) (by norm_num) (by norm_num) (by norm_num [stubDevice])
      (by norm_num [stubDevice]) runtime_4000ns, if_pos (by norm_num)]
  · rw [evaluate_exceeds (stubDevice 64 (completedEvent 0 0)
        [completedEvent 0 5000000, completedEvent 0 1000000, completedEvent 0 3000000]) 1 1 1 1 1 1 [10, 11]
      3 0 0 0 (fun i => ([5, 1, 3] : List ℚ).getD i 0)
      rfl rfl (by norm_num) (by norm_num) (by norm_num) (by norm_num [stubDevice])
      (by norm_num [stubDevice]) runtime_0ms le_rfl (by norm_num)
      (fun i hi => by
        have hi0 : i = 0 := by omega
        subst hi0
        exact runtime_5ms)
      (fun i hi => absurd hi (Nat.not_lt_zero i)) (by norm_num)]
    have e : toClUint 1 = 1 := by decide
    simp [e, List.enum, List.enumFrom]

/-! ## Benchmark: claim C6 -/

theorem launches_executeKernel (dev : DispatchEvents) (kernel : Kernel)
    (l1 l2 l3 g1 g2 g3 : Int) (args : List α) (t : KernelTime)
    (h : (executeKernel dev kernel l1 l2 l3 g1 g2 g3 args).result = .ok t) :
    launches (executeKernel dev kernel l1 l2 l3 g1 g2 g3 args).trace = 1 := by
  rw [executeKernel_trace dev kernel l1 l2 l3 g1 g2 g3 args t h]
  have h1 : List.countP isLaunch
      (args.enum.flatMap fun p => [Op.upload p.2, Op.setAsKernelArg p.2 kernel p.1]) = 0 := by
    rw [List.countP_eq_zero]
    intro a ha
    rw [List.mem_flatMap] at ha
    obtain ⟨p, _, hp⟩ := ha
    simp only [List.mem_cons, List.mem_singleton, List.not_mem_nil, or_false] at hp
    rcases hp with rfl | rfl <;> simp [isLaunch]
  have h2 : List.countP isLaunch (args.map (Op.download : α → Op α)) = 0 := by
    rw [List.countP_eq_zero]
    intro a ha
    rw [List.mem_map] at ha
    obtain ⟨x, _, rfl⟩ := ha
    simp [isLaunch]
  simp only [launches, List.countP_append, h1, h2]
  simp [List.countP_cons, isLaunch]

theorem benchmarkLoop_records (dev : Nat → DispatchEvents) (l1 l2 l3 g1 g2 g3 : Int)
    (args : List α) (T : ℚ) (times : Nat → KernelTime) (n i : Nat)
    (runtimes : List KernelTime)
    (hok : ∀ j, i ≤ j → j < i + n →
      (executeKernel (dev j) .plain l1 l2 l3 g1 g2 g3 args).result = .ok (times j)) :
    ∃ k, k ≤ n ∧
      (benchmarkLoop dev l1 l2 l3 g1 g2 g3 args T n i runtimes).result =
        .ok (runtimes ++ (List.range k).map fun j => times (i + j)) ∧
      launches (benchmarkLoop dev l1 l2 l3 g1 g2 g3 args T n i runtimes).trace = k ∧
      (T = 0 → k = n) ∧
      (k < n → 1 ≤ k ∧ T ≠ 0 ∧ T ≤ (times (i + (k - 1))).launch) ∧
      (T ≠ 0 → ∀ j, j + 1 < k → (times (i + j)).launch < T) := by
  induction n generalizing i runtimes with
  | zero =>
    refine ⟨0, le_rfl, ?_, ?_, fun _ => rfl, fun h => absurd h (lt_irrefl _),
      fun _ j hj => ?_⟩
    · simp [benchmarkLoop, Run.pure_eq]
    · simp [benchmarkLoop, Run.pure_eq, launches]
    · omega
  | succ n ih =>
    have hi := hok i le_rfl (by omega)
    have hstep : (benchmarkLoop dev l1 l2 l3 g1 g2 g3 args T (n + 1) i runtimes).result =
        (if T ≠ 0 ∧ (times i).launch ≥ T then
          (pure (runtimes ++ [times i]) : Run α (List KernelTime))
        else benchmarkLoop dev l1 l2 l3 g1 g2 g3 args T n (i + 1)
          (runtimes ++ [times i])).result := by
      rw [benchmarkLoop]
      simp only [forEachArg_eq, issue_eq, Run.bind_ok]
      rw [Run.result_bind_ok hi]
    have hcount : launches (benchmarkLoop dev l1 l2 l3 g1 g2 g3 args T (n + 1) i runtimes).trace =
        1 + launches (if T ≠ 0 ∧ (times i).launch ≥ T then
          (pure (runtimes ++ [times i]) : Run α (List KernelTime))
        else benchmarkLoop dev l1 l2 l3 g1 g2 g3 args T n (i + 1)
          (runtimes ++ [times i])).trace := by
      have hclear : List.countP isLaunch (args.map (Op.clear : α → Op α)) = 0 := by
        rw [List.countP_eq_zero]
        intro a ha
        rw [List.mem_map] at ha
        obtain ⟨x, _, rfl⟩ := ha
        simp [isLaunch]
      have hexec := launches_executeKernel (dev i) .plain l1 l2 l3 g1 g2 g3 args (times i) hi
      rw [benchmarkLoop]
      simp only [forEachArg_eq, issue_eq, Run.bind_ok]
      rw [Run.trace_bind_ok hi]
      unfold launches at hexec ⊢
      simp only [List.countP_append, hclear, hexec]
      simp [List.countP_cons, isLaunch]
    by_cases hstop : T ≠ 0 ∧ (times i).launch ≥ T
    · refine ⟨1, by omega, ?_, ?_, fun h0 => absurd h0 hstop.1,
        fun _ => ⟨le_rfl, hstop.1, ?_⟩, fun _ j hj => ?_⟩
      · rw [hstep, if_pos hstop]
        simp [Run.pure_eq, List.range_succ]
      · rw [hcount, if_pos hstop]
        simp [Run.pure_eq, launches]
      · simpa using hstop.2
      · omega
    · obtain ⟨k, hk, hres, hlaunch, hzero, hlast, hbefore⟩ :=
        ih (i + 1) (runtimes ++ [times i]) (fun j h1 h2 => hok j (by omega) (by omega))
      refine ⟨k + 1, by omega, ?_, ?_, fun h0 => by rw [hzero h0], fun hlt => ?_,
        fun hT j hj => ?_⟩
      · rw [hstep, if_neg hstop, hres, List.range_succ_eq_map]
        simp [Function.comp_def, Nat.add_assoc, Nat.add_comm 1]
      · rw [hcount, if_neg hstop, hlaunch]
        omega
      · obtain ⟨h1, h2, h3⟩ := hlast (by omega)
        refine ⟨by omega, h2, ?_⟩
        have e : i + (k + 1 - 1) = i + 1 + (k - 1) := by omega
        rw [e]
        exact h3
      · cases j with
        | zero =>
          rw [not_and, not_le] at hstop
          simpa using hstop hT
        | succ j =>
          have := hbefore hT j (by omega)
          have e : i + (j + 1) = i + 1 + j := by omega
          rw [e]
          exact this

/-- C6: when each of the first `N` dispatches completes with the timing record `times j`,
`benchmark` keeps the caller's collection and appends to it the records
`times 0, …, times (k-1)` for some `k ≤ N`, and it launches the kernel exactly `k` times.
With timeout `0` it appends exactly `N` records.  With a non-zero timeout `T` (a positive
one in particular) every appended record but the last has a launch time below `T`, so that
no pass runs after one whose launch time reaches `T`; and whenever `k < N`, at least one
record is appended and the last one has a launch time of at least `T`. -/
theorem benchmark_records (dev : Nat → DispatchEvents) (l1 l2 l3 g1 g2 g3 : Int)
    (args : List α) (N : Nat) (T : ℚ) (runtimes : List KernelTime) (times : Nat → KernelTime)
    (hok : ∀ j, j < N →
      (executeKernel (dev j) .plain l1 l2 l3 g1 g2 g3 args).result = .ok (times j)) :
    ∃ new : List KernelTime,
      (benchmark dev l1 l2 l3 g1 g2 g3 args (N : Int) T runtimes).result =
        .ok (runtimes ++ new) ∧
      new.length ≤ N ∧
      (∀ j, j < new.length → new[j]? = some (times j)) ∧
      launches (benchmark dev l1 l2 l3 g1 g2 g3 args (N : Int) T runtimes).trace
        = new.length ∧
      (T = 0 → new.length = N) ∧
      (T ≠ 0 → ∀ j x, j + 1 < new.length → new[j]? = some x → x.launch < T) ∧
      (new.length < N → T ≠ 0 ∧
        ∃ last, new[new.length - 1]? = some last ∧ T ≤ last.launch) ∧
      (0 < T → new.length < N →
        (∃ last, new[new.length - 1]? = some last ∧ T ≤ last.launch) ∧
        ∀ j x, j < new.length - 1 → new[j]? = some x → x.launch < T) := by
  obtain ⟨k, hk, hres, hlaunch, hzero, hlast, hbefore⟩ := benchmarkLoop_records dev l1 l2 l3
    g1 g2 g3 args T times N 0 runtimes (fun j _ h2 => hok j (by omega))
  simp only [Nat.zero_add] at hres hlast hbefore
  have hget : ∀ j, j < k → ((List.range k).map fun j => times j)[j]? = some (times j) := by
    intro j hj
    simp [List.getElem?_map, List.getElem?_range hj]
  have hlen : ((List.range k).map fun j => times j).length = k := by simp
  refine ⟨(List.range k).map fun j => times j, ?_, by simpa using hk, ?_, ?_, ?_, ?_, ?_, ?_⟩
  · unfold benchmark
    rw [Int.toNat_ofNat]
    exact hres
  · intro j hj
    exact hget j (by simpa using hj)
  · unfold benchmark
    rw [Int.toNat_ofNat, hlaunch]
    simp
  · intro h0
    simpa using hzero h0
  · intro hT j x hj hx
    rw [hlen] at hj
    rw [hget j (by omega)] at hx
    cases hx
    exact hbefore hT j hj
  · intro hlt
    rw [hlen] at hlt ⊢
    obtain ⟨h1, h2, h3⟩ := hlast hlt
    exact ⟨h2, times (k - 1), hget (k - 1) (by omega), h3⟩
  · intro hT hlt
    rw [hlen] at hlt ⊢
    obtain ⟨h1, _, h3⟩ := hlast hlt
    refine ⟨⟨times (k - 1), hget (k - 1) (by omega), h3⟩, fun j x hj hx => ?_⟩
    rw [hget j (by omega)] at hx
    cases hx
    exact hbefore (ne_of_gt hT) j (by omega)

/-- Three requested passes with launch times 2, 5 and 1 ms under a timeout of 4 ms: the
second pass reaches the timeout, so exactly two records are appended and the kernel is
launched exactly twice. -/
theorem benchmark_records_witness :
    ∃ new : List KernelTime,
      (benchmark (fun i => stubDispatch (([2000000, 5000000, 1000000] : List Nat).getD i 0))
        16 16 1 64 64 1 [10, 11] ((3 : Nat) : Int) 4 []).result = .ok ([] ++ new) ∧
      new.length = 2 ∧
      launches (benchmark
        (fun i => stubDispatch (([2000000, 5000000, 1000000] : List Nat).getD i 0))
        16 16 1 64 64 1 [10, 11] ((3 : Nat) : Int) 4 []).trace = 2 := by
  obtain ⟨new, hres, hlen, hget, hlaunch, -, hbefore, hlast, -⟩ := benchmark_records
    (fun i => stubDispatch (([2000000, 5000000, 1000000] : List Nat).getD i 0))
    16 16 1 64 64 1 [10, 11] 3 4 []
    (fun j => ⟨ticksToMilliseconds 1,
      ticksToMilliseconds (([2000000, 5000000, 1000000] : List Nat).getD j 0),
      ticksToMilliseconds 1, ticksToMilliseconds 5⟩)
    (fun j hj => stubDispatch_result _ (by interval_cases j <;> norm_num) .plain 16 16 1 64 64 1
      [10, 11])
  have h2 : new.length = 2 := by
    by_contra hne
    have hcases : new.length = 0 ∨ new.length = 1 ∨ new.length = 3 := by omega
    rcases hcases with h | h | h
    · obtain ⟨-, last, hl, -⟩ := hlast (by omega)
      rw [List.getElem?_eq_none (by omega)] at hl
      cases hl
    · obtain ⟨-, last, hl, hge⟩ := hlast (by omega)
      rw [h, hget 0 (by omega)] at hl
      cases hl
      have e : ticksToMilliseconds (([2000000, 5000000, 1000000] : List Nat).getD 0 0) = 2 :=
        ticksToMilliseconds_2ms
      simp only at hge
      rw [e] at hge
      norm_num at hge
    · have hlt := hbefore (by norm_num) 1 _ (by omega) (hget 1 (by omega))
      have e : ticksToMilliseconds (([2000000, 5000000, 1000000] : List Nat).getD 1 0) = 5 :=
        ticksToMilliseconds_5ms
      simp only at hlt
      rw [e] at hlt
      norm_num at hlt
  exact ⟨new, hres, h2, by rw [hlaunch, h2]⟩

end Executor
